import Mathlib

/-!
Header policy of the binary dictionary format.

A shallow embedding of `native/jni/src/suggest/policyimpl/dictionary/header/header_policy.cpp`
(namespace `latinime`, class `HeaderPolicy`) and the properties of its readers and of its
header writer.

Conventions of the embedding.

* A C++ `int` is an `Int`; a cast from `size_t` to `int` is `toInt32`.
* A code point vector (`std::vector<int>`) is a `List Int`.
* An `int *` output array is a function from cell offsets to cell values.
* A `float` is the rational number it stands for; a `float` operation is the exact operation
  followed by the rounding `toFloat` of IEEE 754 single precision.
* A function that updates an object through a pointer returns the updated object.
-/

namespace latinime

/-! ## Attribute maps -/

/-- Modelled from the spec: `HeaderReadWriteUtils::AttributeMap`, whose declaration is in
`header_read_write_utils.h`: a mapping from attribute key to attribute value, both code point
sequences. The entries are kept as an association list; a key is looked up by its first
entry. -/
abbrev AttributeMap := List (List Int × List Int)

/-- Modelled from the spec: `AttributeMap::find`, an exact lookup by code point sequence;
`none` stands for the iterator `end()`. -/
def AttributeMap.find : AttributeMap → List Int → Option (List Int)
  | [], _ => none
  | (k, v) :: rest, key => if k = key then some v else AttributeMap.find rest key

/-- Modelled from the spec: storing a value under a key, "overwriting any prior value"; a
new key is added. -/
def AttributeMap.assign : AttributeMap → List Int → List Int → AttributeMap
  | [], key, value => [(key, value)]
  | (k, v) :: rest, key, value =>
    if k = key then (k, value) :: rest else (k, v) :: AttributeMap.assign rest key value

/-- Modelled from the spec: `HeaderReadWriteUtils::insertCharactersIntoVector`, the key text
as a sequence of code points, one per character. -/
def insertCharactersIntoVector (characters : String) : List Int :=
  characters.toList.map (fun c => (c.toNat : Int))

/-- The conversion `static_cast<int>` of an unsigned size: the value modulo `2 ^ 32`, read as
a signed 32-bit integer. -/
def toInt32 (n : Nat) : Int :=
  ((n + 2 ^ 31) % 2 ^ 32 : Nat) - 2 ^ 31

/-! ## Attribute keys and constants (`header_policy.cpp`, lines 22 to 37) -/

def MULTIPLE_WORDS_DEMOTION_RATE_KEY : String := "MULTIPLE_WORDS_DEMOTION_RATE"

def REQUIRES_GERMAN_UMLAUT_PROCESSING_KEY : String := "REQUIRES_GERMAN_UMLAUT_PROCESSING"

def IS_DECAYING_DICT_KEY : String := "USES_FORGETTING_CURVE"

def DATE_KEY : String := "date"

def LAST_DECAYED_TIME_KEY : String := "LAST_DECAYED_TIME"

def UNIGRAM_COUNT_KEY : String := "UNIGRAM_COUNT"

def BIGRAM_COUNT_KEY : String := "BIGRAM_COUNT"

def EXTENDED_REGION_SIZE_KEY : String := "EXTENDED_REGION_SIZE"

def HAS_HISTORICAL_INFO_KEY : String := "HAS_HISTORICAL_INFO"

def LOCALE_KEY : String := "locale"

def DEFAULT_MULTIPLE_WORDS_DEMOTION_RATE : Int := 100

/-- The constant `100.0f`, a `float` that is the number 100. -/
def MULTIPLE_WORD_COST_MULTIPLIER_SCALE : ℚ := 100

/-! ## The policy state -/

/-- The members of `HeaderPolicy` that `header_policy.cpp` reads: the format version, the
flag bits, the attribute map decoded from the header, and the cached locale. -/
structure HeaderPolicy where
  mDictFormatVersion : Nat
  mDictionaryFlags : Nat
  mAttributeMap : AttributeMap
  mLocale : List Int

/-! ## `readHeaderValueOrQuestionMark` -/

/-- The loop `for (int i = 0; i < terminalIndex; ++i) outValue[i] = value[i];`. -/
def copyCodePoints (value : List Int) (terminalIndex : Int) (outValue : Int → Int) :
    Int → Int :=
  (List.range terminalIndex.toNat).foldl
    (fun out (i : Nat) => Function.update out (i : Int) (value.getD i 0)) outValue

/-- `HeaderPolicy::readHeaderValueOrQuestionMark(key, outValue, outValueSize)`; the result is
the output array after the call. -/
def HeaderPolicy.readHeaderValueOrQuestionMark (p : HeaderPolicy) (key : String)
    (outValue : Int → Int) (outValueSize : Int) : Int → Int :=
  if outValueSize ≤ 0 then outValue
  else if outValueSize = 1 then Function.update outValue 0 0
  else
    let keyCodePointVector := insertCharactersIntoVector key
    match p.mAttributeMap.find keyCodePointVector with
    | none =>
      -- The key was not found.
      Function.update (Function.update outValue 0 63) 1 0
    | some value =>
      let terminalIndex : Int := min (toInt32 value.length) (outValueSize - 1)
      Function.update (copyCodePoints value terminalIndex outValue) terminalIndex 0

/-! ## `readMultipleWordCostMultiplier` -/

/-- Modelled from the spec: the value of a sequence of decimal digit code points, `none` when
the sequence is empty or holds anything but digits. -/
def parseDigits (digits : List Int) : Option Nat :=
  if digits = [] then none
  else digits.foldl
    (fun (acc : Option Nat) (c : Int) =>
      match acc with
      | none => none
      | some n => if 48 ≤ c ∧ c ≤ 57 then some (n * 10 + (c - 48).toNat) else none)
    (some 0)

/-- Modelled from the spec: a value "parsed as a 32-bit signed integer": an optional minus
sign and decimal digits, in the range of `int`; anything else is malformed. -/
def parseInt32 (text : List Int) : Option Int :=
  let parsed : Option Int :=
    match text with
    | 45 :: digits => (parseDigits digits).map (fun n => -(n : Int))
    | digits => (parseDigits digits).map (fun n => (n : Int))
  match parsed with
  | none => none
  | some value => if -2 ^ 31 ≤ value ∧ value < 2 ^ 31 then some value else none

/-- Modelled from the spec: `HeaderReadWriteUtils::readIntAttributeValue`, which "returns
`default` if key absent or value fails to parse as a base-10 signed integer". -/
def readIntAttributeValue (headerAttributes : AttributeMap) (key : String)
    (defaultValue : Int) : Int :=
  match headerAttributes.find (insertCharactersIntoVector key) with
  | none => defaultValue
  | some text =>
    match parseInt32 text with
    | none => defaultValue
    | some value => value

/-- The integer nearest to `q`, the even one of the two when `q` is half way between them. -/
def roundHalfEven (q : ℚ) : ℤ :=
  if q - ⌊q⌋ < 1 / 2 then ⌊q⌋
  else if 1 / 2 < q - ⌊q⌋ then ⌊q⌋ + 1
  else if ⌊q⌋ % 2 = 0 then ⌊q⌋ else ⌊q⌋ + 1

/-- The binary exponent of the `float` format (IEEE 754 single precision) for `x`: the `e`
with `2 ^ e <= |x| < 2 ^ (e + 1)`, and `-126` below the normal range. -/
def float32Exponent (x : ℚ) : ℤ :=
  max (Int.log 2 |x|) (-126)

/-- The conversion to `float`, IEEE 754 single precision with rounding to nearest, ties to
even. A `float` is the rational number it stands for: `toFloat x` is the multiple of
`2 ^ (e - 23)` nearest to `x`, with `e` the exponent of `x`. It is `static_cast<float>` on an
`int`, and a `float` operation is the exact operation followed by `toFloat`. (A magnitude of
`2 ^ 128` or more has no finite `float`; an `int` and the quotient of 100 by the `float` of
a positive `int` are far below.) -/
def toFloat (x : ℚ) : ℚ :=
  if x = 0 then 0
  else (roundHalfEven (x / 2 ^ (float32Exponent x - 23)) : ℚ) * 2 ^ (float32Exponent x - 23)

/-- `HeaderPolicy::readMultipleWordCostMultiplier`; the returned `float` is the rational
number it stands for. The constant `MAX_VALUE_FOR_WEIGHTING` of `defines.h` is the argument
`maxValueForWeighting`. -/
def HeaderPolicy.readMultipleWordCostMultiplier (maxValueForWeighting : Int)
    (p : HeaderPolicy) : ℚ :=
  let demotionRate := readIntAttributeValue p.mAttributeMap MULTIPLE_WORDS_DEMOTION_RATE_KEY
    DEFAULT_MULTIPLE_WORDS_DEMOTION_RATE
  if demotionRate ≤ 0 then toFloat (maxValueForWeighting : ℚ)
  else toFloat (MULTIPLE_WORD_COST_MULTIPLIER_SCALE / toFloat (demotionRate : ℚ))

/-! ## `fillInHeader` -/

/-- Modelled from the spec: the "decimal-text encoding" of an integer that `setIntAttribute`
stores: a minus sign for a negative number, then the decimal digits, as code points. -/
def decimalText (value : Int) : List Int :=
  (if value < 0 then [45] else []) ++
    (Nat.toDigits 10 value.natAbs).map (fun c => (c.toNat : Int))

/-- Modelled from the spec: `HeaderReadWriteUtils::setIntAttribute`, which "stores the
decimal-text encoding of `intValue`, overwriting any prior value for `key`". -/
def setIntAttribute (headerAttributes : AttributeMap) (key : String) (value : Int) :
    AttributeMap :=
  headerAttributes.assign (insertCharactersIntoVector key) (decimalText value)

/-- Modelled from the spec: `HeaderReadWriteUtils::setCodePointVectorAttribute`, which
"stores the sequence verbatim". -/
def setCodePointVectorAttribute (headerAttributes : AttributeMap) (key : String)
    (value : List Int) : AttributeMap :=
  headerAttributes.assign (insertCharactersIntoVector key) value

/-- `HeaderPolicy::fillInHeader`; the result is `*outAttributeMap` after the call.
Modelled from the spec: `TimeKeeper::peekCurrentTime()` reads the current time held by the
time keeper, here the argument `currentTime`. -/
def HeaderPolicy.fillInHeader (p : HeaderPolicy) (currentTime : Int)
    (updatesLastDecayedTime : Bool) (unigramCount bigramCount extendedRegionSize : Int)
    (outAttributeMap : AttributeMap) : AttributeMap :=
  let m1 := setIntAttribute outAttributeMap UNIGRAM_COUNT_KEY unigramCount
  let m2 := setIntAttribute m1 BIGRAM_COUNT_KEY bigramCount
  let m3 := setIntAttribute m2 EXTENDED_REGION_SIZE_KEY extendedRegionSize
  -- Set the current time as the generation time.
  let m4 := setIntAttribute m3 DATE_KEY currentTime
  let m5 := setCodePointVectorAttribute m4 LOCALE_KEY p.mLocale
  if updatesLastDecayedTime then
    -- Set current time as the last updated time.
    setIntAttribute m5 LAST_DECAYED_TIME_KEY currentTime
  else m5

/-! ## The output buffer and the helpers of `HeaderReadWriteUtils` -/

/-- The write helpers of `HeaderReadWriteUtils` and its attribute reader, which
`header_policy.cpp` calls and whose code is in `header_read_write_utils.cpp`. Each write
helper `bool f(buffer, value, int *writingPos)` is a function from the buffer, the value and
the position to the returned flag, the buffer after the call and the position after the call.
`fetchAllHeaderAttributes(dictBuf, &attributeMap)` is a function from the header bytes and
the map to the map after the call. -/
structure HeaderReadWriteUtils (Buffer : Type) where
  writeDictionaryVersion : Buffer → Nat → Nat → Bool × Buffer × Nat
  writeDictionaryFlags : Buffer → Nat → Nat → Bool × Buffer × Nat
  writeDictionaryHeaderSize : Buffer → Nat → Nat → Bool × Buffer × Nat
  writeHeaderAttributes : Buffer → AttributeMap → Nat → Bool × Buffer × Nat
  fetchAllHeaderAttributes : List Nat → AttributeMap → AttributeMap

/-- `HeaderPolicy::fillInAndWriteHeaderToBuffer`; the result is the returned flag and
`*outBuffer` after the call. -/
def HeaderPolicy.fillInAndWriteHeaderToBuffer {Buffer : Type} (U : HeaderReadWriteUtils Buffer)
    (p : HeaderPolicy) (currentTime : Int) (updatesLastDecayedTime : Bool)
    (unigramCount bigramCount extendedRegionSize : Int) (outBuffer : Buffer) :
    Bool × Buffer :=
  let writingPos : Nat := 0
  let attributeMapToWrite := p.fillInHeader currentTime updatesLastDecayedTime unigramCount
    bigramCount extendedRegionSize p.mAttributeMap
  match U.writeDictionaryVersion outBuffer p.mDictFormatVersion writingPos with
  | (false, outBuffer, _) => (false, outBuffer)
  | (true, outBuffer, writingPos) =>
    match U.writeDictionaryFlags outBuffer p.mDictionaryFlags writingPos with
    | (false, outBuffer, _) => (false, outBuffer)
    | (true, outBuffer, writingPos) =>
      -- Temporarily writes a dummy header size.
      let headerSizeFieldPos := writingPos
      match U.writeDictionaryHeaderSize outBuffer 0 writingPos with
      | (false, outBuffer, _) => (false, outBuffer)
      | (true, outBuffer, writingPos) =>
        match U.writeHeaderAttributes outBuffer attributeMapToWrite writingPos with
        | (false, outBuffer, _) => (false, outBuffer)
        | (true, outBuffer, writingPos) =>
          -- Writes the actual header size.
          match U.writeDictionaryHeaderSize outBuffer writingPos headerSizeFieldPos with
          | (false, outBuffer, _) => (false, outBuffer)
          | (true, outBuffer, _) => (true, outBuffer)

/-- `HeaderPolicy::createAttributeMapAndReadAllAttributes`. -/
def HeaderPolicy.createAttributeMapAndReadAllAttributes {Buffer : Type}
    (U : HeaderReadWriteUtils Buffer) (dictBuf : List Nat) : AttributeMap :=
  let attributeMap : AttributeMap := []
  U.fetchAllHeaderAttributes dictBuf attributeMap

/-! ## The helpers as the specification describes them -/

/-- Modelled from the spec: `BufferWithExtendableBuffer`, "a growable byte-buffer abstraction
supporting append-at-end and patch-at-offset": the bytes written so far and the capacity up
to which the buffer can grow. -/
structure BufferWithExtendableBuffer where
  bytes : List Nat
  maxSize : Nat
  deriving DecidableEq

/-- Modelled from the spec: one write of the buffer abstraction. The bytes `data` are put at
`pos`, over the bytes that are there and past the end when they reach further; the write
fails, and changes nothing, when `pos` is beyond the end of the buffer or the capacity is
exceeded ("buffer-capacity failure"). -/
def BufferWithExtendableBuffer.writeBytes (buffer : BufferWithExtendableBuffer)
    (data : List Nat) (pos : Nat) : Bool × BufferWithExtendableBuffer × Nat :=
  if pos ≤ buffer.bytes.length ∧ pos + data.length ≤ buffer.maxSize then
    (true,
      { buffer with
        bytes := buffer.bytes.take pos ++ data ++ buffer.bytes.drop (pos + data.length) },
      pos + data.length)
  else (false, buffer, pos)

/-- Modelled from the spec: a "fixed-width integer" field of `size` bytes, most significant
byte first. -/
def encodeUint : Nat → Nat → List Nat
  | 0, _ => []
  | size + 1, data => (data / 256 ^ size) % 256 :: encodeUint size data

/-- Modelled from the spec: the value of a fixed-width integer field. -/
def decodeUint (field : List Nat) : Nat :=
  field.foldl (fun acc b => acc * 256 + b) 0

/-- Modelled from the spec: reading the fixed-width integer of `size` bytes at `pos`. -/
def readUint (dictBuf : List Nat) (size pos : Nat) : Nat :=
  decodeUint ((dictBuf.drop pos).take size)

/-- Modelled from the spec: the widths of the three fixed-width fields of the header, which
the spec leaves to the format. -/
structure HeaderFieldSizes where
  versionSize : Nat
  flagSize : Nat
  headerSizeFieldSize : Nat

/-- Modelled from the spec: a length or a code point number as a self-delimiting sequence of
bytes: seven bits per byte, least significant group first, the high bit set on every byte
but the last. The first argument bounds the number of bytes. -/
def encodeVarintAux : Nat → Nat → List Nat
  | 0, n => [n % 128]
  | fuel + 1, n =>
    if n < 128 then [n] else (n % 128 + 128) :: encodeVarintAux fuel (n / 128)

/-- Modelled from the spec: see `encodeVarintAux`. -/
def encodeVarint (n : Nat) : List Nat :=
  encodeVarintAux n n

/-- Modelled from the spec: the inverse of `encodeVarint`, with the bytes that follow. -/
def decodeVarint : List Nat → Option (Nat × List Nat)
  | [] => none
  | b :: rest =>
    if b < 128 then some (b, rest)
    else
      match decodeVarint rest with
      | none => none
      | some (high, rest2) => some (b - 128 + 128 * high, rest2)

/-- Modelled from the spec: a code point (a C++ `int`) as a natural number: the non-negative
ones are the even numbers, the negative ones the odd numbers. -/
def codePointToNat (c : Int) : Nat :=
  if 0 ≤ c then 2 * c.toNat else 2 * (-c - 1).toNat + 1

/-- Modelled from the spec: the inverse of `codePointToNat`. -/
def natToCodePoint (n : Nat) : Int :=
  if n % 2 = 0 then ((n / 2 : Nat) : Int) else -((n / 2 : Nat) : Int) - 1

/-- Modelled from the spec: the code points of a sequence, one after the other. -/
def encodeCodePointsAux : List Int → List Nat
  | [] => []
  | c :: rest => encodeVarint (codePointToNat c) ++ encodeCodePointsAux rest

/-- Modelled from the spec: a code point sequence as "length + bytes": its length, then its
code points. -/
def encodeCodePoints (codePoints : List Int) : List Nat :=
  encodeVarint codePoints.length ++ encodeCodePointsAux codePoints

/-- Modelled from the spec: reading `count` code points. -/
def decodeCodePointsAux : Nat → List Nat → Option (List Int × List Nat)
  | 0, bytes => some ([], bytes)
  | count + 1, bytes =>
    match decodeVarint bytes with
    | none => none
    | some (n, rest) =>
      match decodeCodePointsAux count rest with
      | none => none
      | some (codePoints, rest2) => some (natToCodePoint n :: codePoints, rest2)

/-- Modelled from the spec: the inverse of `encodeCodePoints`, with the bytes that follow. -/
def decodeCodePoints (bytes : List Nat) : Option (List Int × List Nat) :=
  match decodeVarint bytes with
  | none => none
  | some (count, rest) => decodeCodePointsAux count rest

/-- Modelled from the spec: the entries of the attribute blob, "each entry as
key-length+key-bytes, value-length+value-bytes", in the order of the map. -/
def encodeEntries : AttributeMap → List Nat
  | [] => []
  | (key, value) :: rest => encodeCodePoints key ++ encodeCodePoints value ++ encodeEntries rest

/-- Modelled from the spec: the attribute blob, "self-describing": the number of entries,
then the entries. -/
def encodeAttributes (headerAttributes : AttributeMap) : List Nat :=
  encodeVarint headerAttributes.length ++ encodeEntries headerAttributes

/-- Modelled from the spec: a decoded entry enters the map unless its key is there already
("keys unique, no duplicate insertion"). -/
def AttributeMap.insert (m : AttributeMap) (key value : List Int) : AttributeMap :=
  match m.find key with
  | some _ => m
  | none => m ++ [(key, value)]

/-- Modelled from the spec: reading `count` entries into the map; the scan stops where the
bytes are not an entry. -/
def decodeEntries : Nat → List Nat → AttributeMap → AttributeMap
  | 0, _, m => m
  | count + 1, bytes, m =>
    match decodeCodePoints bytes with
    | none => m
    | some (key, rest) =>
      match decodeCodePoints rest with
      | none => m
      | some (value, rest2) => decodeEntries count rest2 (m.insert key value)

/-- Modelled from the spec: writing the entries one after the other; a failing write leaves
what was written before it. -/
def writeEntries (buffer : BufferWithExtendableBuffer) :
    AttributeMap → Nat → Bool × BufferWithExtendableBuffer × Nat
  | [], pos => (true, buffer, pos)
  | (key, value) :: rest, pos =>
    match buffer.writeBytes (encodeCodePoints key) pos with
    | (false, buffer, pos) => (false, buffer, pos)
    | (true, buffer, pos) =>
      match buffer.writeBytes (encodeCodePoints value) pos with
      | (false, buffer, pos) => (false, buffer, pos)
      | (true, buffer, pos) => writeEntries buffer rest pos

/-- Modelled from the spec: the helpers of `HeaderReadWriteUtils` over the buffer above. The
version, the flags and the header size are fixed-width integers; the attribute blob is the
number of entries followed by the entries; `fetchAllHeaderAttributes` "scans the raw header
bytes and reconstructs the full key to value mapping", starting behind the three fixed-width
fields. -/
def headerReadWriteUtils (sizes : HeaderFieldSizes) :
    HeaderReadWriteUtils BufferWithExtendableBuffer where
  writeDictionaryVersion := fun buffer version pos =>
    buffer.writeBytes (encodeUint sizes.versionSize version) pos
  writeDictionaryFlags := fun buffer flags pos =>
    buffer.writeBytes (encodeUint sizes.flagSize flags) pos
  writeDictionaryHeaderSize := fun buffer size pos =>
    buffer.writeBytes (encodeUint sizes.headerSizeFieldSize size) pos
  writeHeaderAttributes := fun buffer headerAttributes pos =>
    match buffer.writeBytes (encodeVarint headerAttributes.length) pos with
    | (false, buffer, pos) => (false, buffer, pos)
    | (true, buffer, pos) => writeEntries buffer headerAttributes pos
  fetchAllHeaderAttributes := fun dictBuf headerAttributes =>
    match decodeVarint
      (dictBuf.drop (sizes.versionSize + sizes.flagSize + sizes.headerSizeFieldSize)) with
    | none => headerAttributes
    | some (count, rest) => decodeEntries count rest headerAttributes

/-! ## Properties -/

theorem copyCodePoints_range (value : List Int) (n : Nat) (out : Int → Int) (j : Int) :
    (List.range n).foldl (fun o (i : Nat) => Function.update o (i : Int) (value.getD i 0)) out j
      = if 0 ≤ j ∧ j < (n : Int) then value.getD j.toNat 0 else out j := by
  induction n with
  | zero =>
    have h0 : ¬ (0 ≤ j ∧ j < ((0 : Nat) : Int)) := by omega
    rw [if_neg h0]
    rfl
  | succ n ih =>
    rw [List.range_succ, List.foldl_append]
    simp only [List.foldl_cons, List.foldl_nil]
    by_cases hj : j = (n : Int)
    · subst hj
      have h2 : 0 ≤ (n : Int) ∧ (n : Int) < ((n + 1 : Nat) : Int) := by omega
      rw [if_pos h2, Function.update_same, Int.toNat_ofNat]
    · rw [Function.update_noteq hj, ih]
      by_cases h1 : 0 ≤ j ∧ j < (n : Int)
      · have h2 : 0 ≤ j ∧ j < ((n + 1 : Nat) : Int) := by omega
        rw [if_pos h1, if_pos h2]
      · have h2 : ¬ (0 ≤ j ∧ j < ((n + 1 : Nat) : Int)) := by omega
        rw [if_neg h1, if_neg h2]

theorem toInt32_of_lt (n : Nat) (h : n < 2 ^ 31) : toInt32 n = (n : Int) := by
  unfold toInt32
  have h1 : (n + 2 ^ 31) % 2 ^ 32 = n + 2 ^ 31 := Nat.mod_eq_of_lt (by omega)
  rw [h1]
  push_cast
  ring

theorem copyCodePoints_apply (value : List Int) (terminalIndex : Int) (out : Int → Int)
    (j : Int) :
    copyCodePoints value terminalIndex out j
      = if 0 ≤ j ∧ j < terminalIndex then value.getD j.toNat 0 else out j := by
  unfold copyCodePoints
  rw [copyCodePoints_range]
  by_cases h : 0 ≤ j ∧ j < terminalIndex
  · have h2 : 0 ≤ j ∧ j < ((terminalIndex.toNat : Nat) : Int) := by omega
    rw [if_pos h, if_pos h2]
  · have h2 : ¬ (0 ≤ j ∧ j < ((terminalIndex.toNat : Nat) : Int)) := by omega
    rw [if_neg h, if_neg h2]

/-- C3: with a capacity `outValueSize` of at least 2 and a key that the attribute map holds
with value `v` (whose size is in the range of `int`), `readHeaderValueOrQuestionMark` leaves
cell `i` equal to `v[i]` for every `i < n`, where `n = min (length v) (outValueSize - 1)`,
leaves the terminator 0 in cell `n`, and leaves every other cell as it was. The function
returns nothing, so a truncation is not signalled. -/
theorem readHeaderValueOrQuestionMark_found (p : HeaderPolicy) (key : String)
    (outValue : Int → Int) (outValueSize : Int) (v : List Int)
    (hsize : 2 ≤ outValueSize)
    (hfind : p.mAttributeMap.find (insertCharactersIntoVector key) = some v)
    (hlen : v.length < 2 ^ 31) :
    (∀ i : Nat, i < min v.length (outValueSize - 1).toNat →
        v[i]? = some (p.readHeaderValueOrQuestionMark key outValue outValueSize i)) ∧
      p.readHeaderValueOrQuestionMark key outValue outValueSize
        ((min v.length (outValueSize - 1).toNat : Nat) : Int) = 0 ∧
      (∀ j : Int, (j < 0 ∨ ((min v.length (outValueSize - 1).toNat : Nat) : Int) < j) →
        p.readHeaderValueOrQuestionMark key outValue outValueSize j = outValue j) := by
  have h0 : ¬ outValueSize ≤ 0 := by omega
  have h1 : ¬ outValueSize = 1 := by omega
  have hn : min (toInt32 v.length) (outValueSize - 1)
      = ((min v.length (outValueSize - 1).toNat : Nat) : Int) := by
    rw [toInt32_of_lt _ hlen]
    omega
  have hout : p.readHeaderValueOrQuestionMark key outValue outValueSize
      = Function.update
          (copyCodePoints v ((min v.length (outValueSize - 1).toNat : Nat) : Int) outValue)
          ((min v.length (outValueSize - 1).toNat : Nat) : Int) 0 := by
    unfold HeaderPolicy.readHeaderValueOrQuestionMark
    rw [if_neg h0, if_neg h1]
    simp only [hfind, hn]
  rw [hout]
  refine ⟨?_, ?_, ?_⟩
  · intro i hi
    have hne : (i : Int) ≠ ((min v.length (outValueSize - 1).toNat : Nat) : Int) := by omega
    rw [Function.update_noteq hne, copyCodePoints_apply]
    have hin : 0 ≤ (i : Int) ∧ (i : Int) < ((min v.length (outValueSize - 1).toNat : Nat) : Int) := by
      omega
    rw [if_pos hin, Int.toNat_ofNat]
    have hil : i < v.length := by omega
    simp [List.getD, List.getElem?_eq_getElem hil]
  · rw [Function.update_same]
  · intro j hj
    have hne : j ≠ ((min v.length (outValueSize - 1).toNat : Nat) : Int) := by omega
    rw [Function.update_noteq hne, copyCodePoints_apply]
    have hin : ¬ (0 ≤ j ∧ j < ((min v.length (outValueSize - 1).toNat : Nat) : Int)) := by
      omega
    rw [if_neg hin]

/-- C4: with a capacity `outValueSize` of at least 2 and a key that the attribute map does
not hold, `readHeaderValueOrQuestionMark` writes the code point of the question mark (63)
into cell 0 and the terminator 0 into cell 1 and changes no other cell. -/
theorem readHeaderValueOrQuestionMark_missing (p : HeaderPolicy) (key : String)
    (outValue : Int → Int) (outValueSize : Int)
    (hsize : 2 ≤ outValueSize)
    (hfind : p.mAttributeMap.find (insertCharactersIntoVector key) = none) :
    p.readHeaderValueOrQuestionMark key outValue outValueSize 0 = 63 ∧
      p.readHeaderValueOrQuestionMark key outValue outValueSize 1 = 0 ∧
      (∀ j : Int, j ≠ 0 → j ≠ 1 →
        p.readHeaderValueOrQuestionMark key outValue outValueSize j = outValue j) := by
  have h0 : ¬ outValueSize ≤ 0 := by omega
  have h1 : ¬ outValueSize = 1 := by omega
  have hout : p.readHeaderValueOrQuestionMark key outValue outValueSize
      = Function.update (Function.update outValue 0 63) 1 0 := by
    unfold HeaderPolicy.readHeaderValueOrQuestionMark
    rw [if_neg h0, if_neg h1]
    simp only [hfind]
  rw [hout]
  refine ⟨?_, ?_, ?_⟩
  · rw [Function.update_noteq (by decide), Function.update_same]
  · rw [Function.update_same]
  · intro j hj0 hj1
    rw [Function.update_noteq hj1, Function.update_noteq hj0]

/-- C5: with a capacity `outValueSize` below 2, `readHeaderValueOrQuestionMark` does not look
at the attribute map: for `outValueSize <= 0` the output array is returned as it was, and
for `outValueSize == 1` cell 0 receives the terminator 0 and no other cell changes. -/
theorem readHeaderValueOrQuestionMark_small (p : HeaderPolicy) (key : String)
    (outValue : Int → Int) (outValueSize : Int) (hsize : outValueSize < 2) :
    p.readHeaderValueOrQuestionMark key outValue outValueSize
      = if outValueSize ≤ 0 then outValue else Function.update outValue 0 0 := by
  unfold HeaderPolicy.readHeaderValueOrQuestionMark
  by_cases h0 : outValueSize ≤ 0
  · rw [if_pos h0, if_pos h0]
  · have h1 : outValueSize = 1 := by omega
    rw [if_neg h0, if_pos h1, if_neg h0]

theorem find_assign_same (m : AttributeMap) (key value : List Int) :
    (m.assign key value).find key = some value := by
  induction m with
  | nil => simp [AttributeMap.assign, AttributeMap.find]
  | cons e rest ih =>
    obtain ⟨k, v⟩ := e
    by_cases hk : k = key
    · simp [AttributeMap.assign, AttributeMap.find, hk]
    · simp [AttributeMap.assign, AttributeMap.find, hk, ih]

theorem find_assign_ne (m : AttributeMap) (key other value : List Int) (h : key ≠ other) :
    (m.assign key value).find other = m.find other := by
  induction m with
  | nil => simp [AttributeMap.assign, AttributeMap.find, h]
  | cons e rest ih =>
    obtain ⟨k, v⟩ := e
    by_cases hk : k = key
    · subst hk
      simp [AttributeMap.assign, AttributeMap.find, h]
    · by_cases ho : k = other
      · subst ho
        simp [AttributeMap.assign, AttributeMap.find, hk]
      · simp [AttributeMap.assign, AttributeMap.find, hk, ho, ih]

theorem find_setIntAttribute_same (m : AttributeMap) (key : String) (value : Int) :
    (setIntAttribute m key value).find (insertCharactersIntoVector key)
      = some (decimalText value) :=
  find_assign_same m _ _

theorem find_setIntAttribute_ne (m : AttributeMap) (key : String) (value : Int)
    (other : List Int) (h : insertCharactersIntoVector key ≠ other) :
    (setIntAttribute m key value).find other = m.find other :=
  find_assign_ne m _ _ _ h

theorem find_setCodePointVectorAttribute_same (m : AttributeMap) (key : String)
    (value : List Int) :
    (setCodePointVectorAttribute m key value).find (insertCharactersIntoVector key)
      = some value :=
  find_assign_same m _ _

theorem find_setCodePointVectorAttribute_ne (m : AttributeMap) (key : String)
    (value other : List Int) (h : insertCharactersIntoVector key ≠ other) :
    (setCodePointVectorAttribute m key value).find other = m.find other :=
  find_assign_ne m _ _ _ h

/-- C7: `fillInHeader` with `updatesLastDecayedTime = true`, on any attribute map, counts and
current time `t`, yields a map in which UNIGRAM_COUNT, BIGRAM_COUNT and EXTENDED_REGION_SIZE
hold the decimal text of the respective argument, locale holds the cached locale of the
policy, and date and LAST_DECAYED_TIME both hold the decimal text of `t`; the decimal texts
of 500, 200 and 0 are "500", "200" and "0". -/
theorem fillInHeader_updating (p : HeaderPolicy) (currentTime : Int)
    (unigramCount bigramCount extendedRegionSize : Int) (m : AttributeMap) :
    ((p.fillInHeader currentTime true unigramCount bigramCount extendedRegionSize m).find
        (insertCharactersIntoVector UNIGRAM_COUNT_KEY) = some (decimalText unigramCount) ∧
      (p.fillInHeader currentTime true unigramCount bigramCount extendedRegionSize m).find
        (insertCharactersIntoVector BIGRAM_COUNT_KEY) = some (decimalText bigramCount) ∧
      (p.fillInHeader currentTime true unigramCount bigramCount extendedRegionSize m).find
        (insertCharactersIntoVector EXTENDED_REGION_SIZE_KEY)
          = some (decimalText extendedRegionSize) ∧
      (p.fillInHeader currentTime true unigramCount bigramCount extendedRegionSize m).find
        (insertCharactersIntoVector LOCALE_KEY) = some p.mLocale ∧
      (p.fillInHeader currentTime true unigramCount bigramCount extendedRegionSize m).find
        (insertCharactersIntoVector DATE_KEY) = some (decimalText currentTime) ∧
      (p.fillInHeader currentTime true unigramCount bigramCount extendedRegionSize m).find
        (insertCharactersIntoVector LAST_DECAYED_TIME_KEY) = some (decimalText currentTime)) ∧
    (decimalText 500 = insertCharactersIntoVector "500" ∧
      decimalText 200 = insertCharactersIntoVector "200" ∧
      decimalText 0 = insertCharactersIntoVector "0") := by
  refine ⟨⟨?_, ?_, ?_, ?_, ?_, ?_⟩, by decide, by decide, by decide⟩
  · simp only [HeaderPolicy.fillInHeader, if_true]
    rw [find_setIntAttribute_ne _ _ _ _ (by decide),
      find_setCodePointVectorAttribute_ne _ _ _ _ (by decide),
      find_setIntAttribute_ne _ _ _ _ (by decide),
      find_setIntAttribute_ne _ _ _ _ (by decide),
      find_setIntAttribute_ne _ _ _ _ (by decide),
      find_setIntAttribute_same]
  · simp only [HeaderPolicy.fillInHeader, if_true]
    rw [find_setIntAttribute_ne _ _ _ _ (by decide),
      find_setCodePointVectorAttribute_ne _ _ _ _ (by decide),
      find_setIntAttribute_ne _ _ _ _ (by decide),
      find_setIntAttribute_ne _ _ _ _ (by decide),
      find_setIntAttribute_same]
  · simp only [HeaderPolicy.fillInHeader, if_true]
    rw [find_setIntAttribute_ne _ _ _ _ (by decide),
      find_setCodePointVectorAttribute_ne _ _ _ _ (by decide),
      find_setIntAttribute_ne _ _ _ _ (by decide),
      find_setIntAttribute_same]
  · simp only [HeaderPolicy.fillInHeader, if_true]
    rw [find_setIntAttribute_ne _ _ _ _ (by decide),
      find_setCodePointVectorAttribute_same]
  · simp only [HeaderPolicy.fillInHeader, if_true]
    rw [find_setIntAttribute_ne _ _ _ _ (by decide),
      find_setCodePointVectorAttribute_ne _ _ _ _ (by decide),
      find_setIntAttribute_same]
  · simp only [HeaderPolicy.fillInHeader, if_true]
    rw [find_setIntAttribute_same]

theorem fillInHeader_find_other (p : HeaderPolicy) (currentTime : Int)
    (updatesLastDecayedTime : Bool) (unigramCount bigramCount extendedRegionSize : Int)
    (m : AttributeMap) (k : List Int)
    (h1 : insertCharactersIntoVector UNIGRAM_COUNT_KEY ≠ k)
    (h2 : insertCharactersIntoVector BIGRAM_COUNT_KEY ≠ k)
    (h3 : insertCharactersIntoVector EXTENDED_REGION_SIZE_KEY ≠ k)
    (h4 : insertCharactersIntoVector DATE_KEY ≠ k)
    (h5 : insertCharactersIntoVector LOCALE_KEY ≠ k)
    (h6 : updatesLastDecayedTime = true → insertCharactersIntoVector LAST_DECAYED_TIME_KEY ≠ k) :
    (p.fillInHeader currentTime updatesLastDecayedTime unigramCount bigramCount
      extendedRegionSize m).find k = m.find k := by
  have h5steps : (setCodePointVectorAttribute (setIntAttribute (setIntAttribute
      (setIntAttribute (setIntAttribute m UNIGRAM_COUNT_KEY unigramCount) BIGRAM_COUNT_KEY
        bigramCount) EXTENDED_REGION_SIZE_KEY extendedRegionSize) DATE_KEY currentTime)
      LOCALE_KEY p.mLocale).find k = m.find k := by
    rw [find_setCodePointVectorAttribute_ne _ _ _ _ h5, find_setIntAttribute_ne _ _ _ _ h4,
      find_setIntAttribute_ne _ _ _ _ h3, find_setIntAttribute_ne _ _ _ _ h2,
      find_setIntAttribute_ne _ _ _ _ h1]
  cases updatesLastDecayedTime with
  | false =>
    simp only [HeaderPolicy.fillInHeader, Bool.false_eq_true, if_false]
    exact h5steps
  | true =>
    simp only [HeaderPolicy.fillInHeader, if_true]
    rw [find_setIntAttribute_ne _ _ _ _ (h6 rfl)]
    exact h5steps

theorem fillInHeader_find_date (p : HeaderPolicy) (currentTime : Int)
    (unigramCount bigramCount extendedRegionSize : Int) (m : AttributeMap) :
    (p.fillInHeader currentTime false unigramCount bigramCount extendedRegionSize m).find
      (insertCharactersIntoVector DATE_KEY) = some (decimalText currentTime) := by
  simp only [HeaderPolicy.fillInHeader, Bool.false_eq_true, if_false]
  rw [find_setCodePointVectorAttribute_ne _ _ _ _ (by decide), find_setIntAttribute_same]

/-- C8: `fillInHeader` with `updatesLastDecayedTime = false`, called once on a map `m` or a
second time on the result of the first call, with any counts and at any current times, leaves
the LAST_DECAYED_TIME entry exactly as `m` has it (the same value, or still absent), while
after each call the date attribute holds the decimal text of the current time of that
call. -/
theorem fillInHeader_not_updating (p : HeaderPolicy) (m : AttributeMap)
    (t1 u1 b1 e1 t2 u2 b2 e2 : Int) :
    (p.fillInHeader t1 false u1 b1 e1 m).find (insertCharactersIntoVector LAST_DECAYED_TIME_KEY)
        = m.find (insertCharactersIntoVector LAST_DECAYED_TIME_KEY) ∧
      (p.fillInHeader t1 false u1 b1 e1 m).find (insertCharactersIntoVector DATE_KEY)
        = some (decimalText t1) ∧
      (p.fillInHeader t2 false u2 b2 e2 (p.fillInHeader t1 false u1 b1 e1 m)).find
          (insertCharactersIntoVector LAST_DECAYED_TIME_KEY)
        = m.find (insertCharactersIntoVector LAST_DECAYED_TIME_KEY) ∧
      (p.fillInHeader t2 false u2 b2 e2 (p.fillInHeader t1 false u1 b1 e1 m)).find
          (insertCharactersIntoVector DATE_KEY)
        = some (decimalText t2) := by
  have hkeep : ∀ (t u b e : Int) (m0 : AttributeMap),
      (p.fillInHeader t false u b e m0).find (insertCharactersIntoVector LAST_DECAYED_TIME_KEY)
        = m0.find (insertCharactersIntoVector LAST_DECAYED_TIME_KEY) := by
    intro t u b e m0
    exact fillInHeader_find_other p t false u b e m0 _ (by decide) (by decide) (by decide)
      (by decide) (by decide) (by intro h; cases h)
  refine ⟨hkeep _ _ _ _ _, fillInHeader_find_date _ _ _ _ _ _, ?_,
    fillInHeader_find_date _ _ _ _ _ _⟩
  rw [hkeep, hkeep]

/-- C10: for every key `k` other than UNIGRAM_COUNT, BIGRAM_COUNT, EXTENDED_REGION_SIZE,
date, locale and LAST_DECAYED_TIME, the map produced by `fillInHeader` (with either value of
`updatesLastDecayedTime`) has `k` exactly as the given map has it: present with the same
value, or absent. -/
theorem fillInHeader_frame (p : HeaderPolicy) (currentTime : Int)
    (updatesLastDecayedTime : Bool) (unigramCount bigramCount extendedRegionSize : Int)
    (m : AttributeMap) (k : List Int)
    (h1 : k ≠ insertCharactersIntoVector UNIGRAM_COUNT_KEY)
    (h2 : k ≠ insertCharactersIntoVector BIGRAM_COUNT_KEY)
    (h3 : k ≠ insertCharactersIntoVector EXTENDED_REGION_SIZE_KEY)
    (h4 : k ≠ insertCharactersIntoVector DATE_KEY)
    (h5 : k ≠ insertCharactersIntoVector LOCALE_KEY)
    (h6 : k ≠ insertCharactersIntoVector LAST_DECAYED_TIME_KEY) :
    (p.fillInHeader currentTime updatesLastDecayedTime unigramCount bigramCount
      extendedRegionSize m).find k = m.find k :=
  fillInHeader_find_other p currentTime updatesLastDecayedTime unigramCount bigramCount
    extendedRegionSize m k (Ne.symm h1) (Ne.symm h2) (Ne.symm h3) (Ne.symm h4) (Ne.symm h5)
    (fun _ => Ne.symm h6)

/-- C2: `fillInAndWriteHeaderToBuffer` performs the five buffer writes in the order format
version, flags, placeholder header size 0, attribute blob, patched header size, each on the
buffer and at the position the one before left. It returns true if and only if all five
succeed, and then the buffer is the one the fifth write left. When a write fails it returns
false and the buffer is the one that failing write left: no later write is applied to it and
nothing written before is undone. -/
theorem fillInAndWriteHeaderToBuffer_steps {Buffer : Type} (U : HeaderReadWriteUtils Buffer)
    (p : HeaderPolicy) (currentTime : Int) (updatesLastDecayedTime : Bool)
    (unigramCount bigramCount extendedRegionSize : Int) (outBuffer : Buffer) :
    let r1 := U.writeDictionaryVersion outBuffer p.mDictFormatVersion 0
    let r2 := U.writeDictionaryFlags r1.2.1 p.mDictionaryFlags r1.2.2
    let r3 := U.writeDictionaryHeaderSize r2.2.1 0 r2.2.2
    let r4 := U.writeHeaderAttributes r3.2.1
      (p.fillInHeader currentTime updatesLastDecayedTime unigramCount bigramCount
        extendedRegionSize p.mAttributeMap) r3.2.2
    let r5 := U.writeDictionaryHeaderSize r4.2.1 r4.2.2 r2.2.2
    let result := p.fillInAndWriteHeaderToBuffer U currentTime updatesLastDecayedTime
      unigramCount bigramCount extendedRegionSize outBuffer
    (result.1 = true ↔
        (r1.1 = true ∧ r2.1 = true ∧ r3.1 = true ∧ r4.1 = true ∧ r5.1 = true)) ∧
      (r1.1 = false → result = (false, r1.2.1)) ∧
      (r1.1 = true → r2.1 = false → result = (false, r2.2.1)) ∧
      (r1.1 = true → r2.1 = true → r3.1 = false → result = (false, r3.2.1)) ∧
      (r1.1 = true → r2.1 = true → r3.1 = true → r4.1 = false →
        result = (false, r4.2.1)) ∧
      (r1.1 = true → r2.1 = true → r3.1 = true → r4.1 = true → r5.1 = false →
        result = (false, r5.2.1)) ∧
      (r1.1 = true → r2.1 = true → r3.1 = true → r4.1 = true → r5.1 = true →
        result = (true, r5.2.1)) := by
  intro r1 r2 r3 r4 r5 result
  simp only [result, HeaderPolicy.fillInAndWriteHeaderToBuffer]
  rcases h1 : U.writeDictionaryVersion outBuffer p.mDictFormatVersion 0 with ⟨ok1, b1, p1⟩
  have e1 : r1 = (ok1, b1, p1) := h1
  cases ok1 with
  | false => simp [e1]
  | true =>
    rcases h2 : U.writeDictionaryFlags b1 p.mDictionaryFlags p1 with ⟨ok2, b2, p2⟩
    have e2 : r2 = (ok2, b2, p2) := by simp only [r2, e1]; exact h2
    cases ok2 with
    | false => simp [e1, e2, h2]
    | true =>
      rcases h3 : U.writeDictionaryHeaderSize b2 0 p2 with ⟨ok3, b3, p3⟩
      have e3 : r3 = (ok3, b3, p3) := by simp only [r3, e2]; exact h3
      cases ok3 with
      | false => simp [e1, e2, e3, h2, h3]
      | true =>
        rcases h4 : U.writeHeaderAttributes b3
          (p.fillInHeader currentTime updatesLastDecayedTime unigramCount bigramCount
            extendedRegionSize p.mAttributeMap) p3 with ⟨ok4, b4, p4⟩
        have e4 : r4 = (ok4, b4, p4) := by simp only [r4, e3]; exact h4
        cases ok4 with
        | false => simp [e1, e2, e3, e4, h2, h3, h4]
        | true =>
          rcases h5 : U.writeDictionaryHeaderSize b4 p4 p2 with ⟨ok5, b5, p5⟩
          have e5 : r5 = (ok5, b5, p5) := by simp only [r5, e4, e2]; exact h5
          cases ok5 with
          | false => simp [e1, e2, e3, e4, e5, h2, h3, h4, h5]
          | true => simp [e1, e2, e3, e4, e5, h2, h3, h4, h5]

/-! ### The fixed-width fields -/

theorem encodeUint_length (size data : Nat) : (encodeUint size data).length = size := by
  induction size with
  | zero => rfl
  | succ n ih => simp [encodeUint, ih]

theorem foldl_encodeUint (size data acc : Nat) :
    (encodeUint size data).foldl (fun a b => a * 256 + b) acc
      = acc * 256 ^ size + data % 256 ^ size := by
  induction size generalizing acc with
  | zero => simp [encodeUint, Nat.mod_one]
  | succ n ih =>
    simp only [encodeUint, List.foldl_cons]
    rw [ih, Nat.mod_pow_succ]
    ring

theorem decodeUint_encodeUint (size data : Nat) :
    decodeUint (encodeUint size data) = data % 256 ^ size := by
  unfold decodeUint
  rw [foldl_encodeUint]
  simp

/-! ### Lengths and code points -/

theorem decodeVarint_encodeVarintAux (fuel n : Nat) (rest : List Nat) (h : n ≤ fuel) :
    decodeVarint (encodeVarintAux fuel n ++ rest) = some (n, rest) := by
  induction fuel generalizing n with
  | zero =>
    have h0 : n = 0 := by omega
    subst h0
    simp [encodeVarintAux, decodeVarint]
  | succ fuel ih =>
    by_cases hn : n < 128
    · simp [encodeVarintAux, decodeVarint, hn]
    · have hdiv : n / 128 ≤ fuel := by omega
      have hb : ¬ (n % 128 + 128 < 128) := by omega
      simp only [encodeVarintAux, if_neg hn, List.cons_append, decodeVarint, if_neg hb,
        ih (n / 128) hdiv]
      have : n % 128 + 128 - 128 + 128 * (n / 128) = n := by omega
      rw [this]

theorem decodeVarint_encodeVarint (n : Nat) (rest : List Nat) :
    decodeVarint (encodeVarint n ++ rest) = some (n, rest) :=
  decodeVarint_encodeVarintAux n n rest (Nat.le_refl n)

theorem natToCodePoint_codePointToNat (c : Int) : natToCodePoint (codePointToNat c) = c := by
  unfold natToCodePoint codePointToNat
  by_cases hc : 0 ≤ c
  · rw [if_pos hc]
    have h2 : 2 * c.toNat % 2 = 0 := by omega
    rw [if_pos h2]
    omega
  · rw [if_neg hc]
    have h2 : ¬ ((2 * (-c - 1).toNat + 1) % 2 = 0) := by omega
    rw [if_neg h2]
    omega

theorem decodeCodePointsAux_encode (codePoints : List Int) (rest : List Nat) :
    decodeCodePointsAux codePoints.length (encodeCodePointsAux codePoints ++ rest)
      = some (codePoints, rest) := by
  induction codePoints with
  | nil => simp [decodeCodePointsAux, encodeCodePointsAux]
  | cons c cs ih =>
    simp only [List.length_cons, decodeCodePointsAux, encodeCodePointsAux, List.append_assoc,
      decodeVarint_encodeVarint, ih, natToCodePoint_codePointToNat]

theorem decodeCodePoints_encodeCodePoints (codePoints : List Int) (rest : List Nat) :
    decodeCodePoints (encodeCodePoints codePoints ++ rest) = some (codePoints, rest) := by
  simp only [decodeCodePoints, encodeCodePoints, List.append_assoc, decodeVarint_encodeVarint,
    decodeCodePointsAux_encode]

/-! ### The attribute blob -/

theorem find_append (a b : AttributeMap) (k : List Int) :
    AttributeMap.find (a ++ b) k
      = match AttributeMap.find a k with
        | some v => some v
        | none => AttributeMap.find b k := by
  induction a with
  | nil => simp [AttributeMap.find]
  | cons e rest ih =>
    obtain ⟨k1, v1⟩ := e
    by_cases hk : k1 = k
    · simp [AttributeMap.find, hk]
    · simp [AttributeMap.find, hk, ih]

theorem find_insert (m : AttributeMap) (key value k : List Int) :
    (m.insert key value).find k
      = match m.find k with
        | some v => some v
        | none => if key = k then some value else none := by
  unfold AttributeMap.insert
  cases hkey : m.find key with
  | some w => 
    simp only []
    cases hk : m.find k with
    | some v => rfl
    | none =>
      have hne : ¬ key = k := by
        intro h
        rw [h, hk] at hkey
        cases hkey
      simp [hne]
  | none =>
    simp only []
    rw [find_append]
    cases hk : m.find k with
    | some v => rfl
    | none => simp [AttributeMap.find]

theorem decodeEntries_encodeEntries (m acc : AttributeMap) (rest : List Nat) :
    decodeEntries m.length (encodeEntries m ++ rest) acc
      = m.foldl (fun a e => a.insert e.1 e.2) acc := by
  induction m generalizing acc with
  | nil => simp [decodeEntries]
  | cons e tail ih =>
    obtain ⟨key, value⟩ := e
    simp only [List.length_cons, decodeEntries, encodeEntries, List.append_assoc,
      decodeCodePoints_encodeCodePoints, List.foldl_cons]
    exact ih _

theorem find_foldl_insert (m acc : AttributeMap) (k : List Int) :
    (m.foldl (fun a e => a.insert e.1 e.2) acc).find k
      = match acc.find k with
        | some v => some v
        | none => AttributeMap.find m k := by
  induction m generalizing acc with
  | nil =>
    simp only [List.foldl_nil, AttributeMap.find]
    cases acc.find k <;> rfl
  | cons e tail ih =>
    obtain ⟨key, value⟩ := e
    simp only [List.foldl_cons]
    rw [ih, find_insert]
    cases hk : acc.find k with
    | some v => rfl
    | none =>
      by_cases hkey : key = k
      · simp [AttributeMap.find, hkey]
      · simp [AttributeMap.find, hkey]

/-! ### Writes into the buffer -/

theorem writeBytes_written (buffer : BufferWithExtendableBuffer) (W T data : List Nat)
    (hb : buffer.bytes = W ++ T) (b : BufferWithExtendableBuffer) (q : Nat)
    (h : buffer.writeBytes data W.length = (true, b, q)) :
    b.bytes = (W ++ data) ++ T.drop data.length ∧ b.maxSize = buffer.maxSize ∧
      q = (W ++ data).length ∧ (W ++ data).length ≤ buffer.maxSize := by
  unfold BufferWithExtendableBuffer.writeBytes at h
  by_cases hc : W.length ≤ buffer.bytes.length ∧ W.length + data.length ≤ buffer.maxSize
  · rw [if_pos hc] at h
    simp only [Prod.mk.injEq, true_and] at h
    obtain ⟨hbuf, hq⟩ := h
    subst hbuf
    subst hq
    refine ⟨?_, rfl, by simp, by simpa using hc.2⟩
    simp only [hb]
    rw [List.take_left, List.drop_append]
  · rw [if_neg hc] at h
    simp at h

theorem writeEntries_written (m : AttributeMap) (buffer : BufferWithExtendableBuffer)
    (W T : List Nat) (hb : buffer.bytes = W ++ T) (b : BufferWithExtendableBuffer) (q : Nat)
    (h : writeEntries buffer m W.length = (true, b, q)) :
    b.bytes = (W ++ encodeEntries m) ++ T.drop (encodeEntries m).length ∧
      b.maxSize = buffer.maxSize ∧ q = (W ++ encodeEntries m).length ∧
      (W ++ encodeEntries m).length ≤ max buffer.maxSize W.length := by
  induction m generalizing buffer W T with
  | nil =>
    simp only [writeEntries, Prod.mk.injEq, true_and] at h
    obtain ⟨hbuf, hq⟩ := h
    subst hbuf
    subst hq
    simp [encodeEntries, hb]
  | cons e tail ih =>
    obtain ⟨key, value⟩ := e
    simp only [writeEntries] at h
    rcases h1 : buffer.writeBytes (encodeCodePoints key) W.length with ⟨ok1, b1, q1⟩
    rw [h1] at h
    cases ok1 with
    | false => simp at h
    | true =>
      simp only at h
      obtain ⟨hb1, hm1, hq1, _⟩ := writeBytes_written buffer W T _ hb b1 q1 h1
      subst hq1
      rcases h2 : b1.writeBytes (encodeCodePoints value) (W ++ encodeCodePoints key).length
        with ⟨ok2, b2, q2⟩
      rw [h2] at h
      cases ok2 with
      | false => simp at h
      | true =>
        simp only at h
        obtain ⟨hb2, hm2, hq2, hle2⟩ := writeBytes_written b1 _ _ _ hb1 b2 q2 h2
        subst hq2
        obtain ⟨hb3, hm3, hq3, hle3⟩ := ih b2 _ _ hb2 h
        refine ⟨?_, ?_, ?_, ?_⟩
        · rw [hb3]
          simp only [encodeEntries, List.append_assoc, List.drop_drop, List.length_append]
          congr 5
          omega
        · rw [hm3, hm2, hm1]
        · rw [hq3]
          simp [encodeEntries, List.append_assoc]
        · simp only [encodeEntries, List.append_assoc, List.length_append] at hle3 hle2 ⊢
          rw [hm2, hm1] at hle3
          rw [hm1] at hle2
          omega

/-! ### The written header -/

theorem fillInAndWriteHeaderToBuffer_success {Buffer : Type} (U : HeaderReadWriteUtils Buffer)
    (p : HeaderPolicy) (currentTime : Int) (updatesLastDecayedTime : Bool)
    (unigramCount bigramCount extendedRegionSize : Int) (outBuffer out : Buffer)
    (h : p.fillInAndWriteHeaderToBuffer U currentTime updatesLastDecayedTime unigramCount
      bigramCount extendedRegionSize outBuffer = (true, out)) :
    ∃ b1 p1 b2 p2 b3 p3 b4 p4 p5,
      U.writeDictionaryVersion outBuffer p.mDictFormatVersion 0 = (true, b1, p1) ∧
      U.writeDictionaryFlags b1 p.mDictionaryFlags p1 = (true, b2, p2) ∧
      U.writeDictionaryHeaderSize b2 0 p2 = (true, b3, p3) ∧
      U.writeHeaderAttributes b3 (p.fillInHeader currentTime updatesLastDecayedTime
        unigramCount bigramCount extendedRegionSize p.mAttributeMap) p3 = (true, b4, p4) ∧
      U.writeDictionaryHeaderSize b4 p4 p2 = (true, out, p5) := by
  simp only [HeaderPolicy.fillInAndWriteHeaderToBuffer] at h
  rcases h1 : U.writeDictionaryVersion outBuffer p.mDictFormatVersion 0 with ⟨ok1, b1, p1⟩
  rw [h1] at h
  cases ok1 with
  | false => simp at h
  | true =>
    simp only at h
    rcases h2 : U.writeDictionaryFlags b1 p.mDictionaryFlags p1 with ⟨ok2, b2, p2⟩
    rw [h2] at h
    cases ok2 with
    | false => simp at h
    | true =>
      simp only at h
      rcases h3 : U.writeDictionaryHeaderSize b2 0 p2 with ⟨ok3, b3, p3⟩
      rw [h3] at h
      cases ok3 with
      | false => simp at h
      | true =>
        simp only at h
        rcases h4 : U.writeHeaderAttributes b3 (p.fillInHeader currentTime
          updatesLastDecayedTime unigramCount bigramCount extendedRegionSize
          p.mAttributeMap) p3 with ⟨ok4, b4, p4⟩
        rw [h4] at h
        cases ok4 with
        | false => simp at h
        | true =>
          simp only at h
          rcases h5 : U.writeDictionaryHeaderSize b4 p4 p2 with ⟨ok5, b5, p5⟩
          rw [h5] at h
          cases ok5 with
          | false => simp at h
          | true =>
            simp only [Prod.mk.injEq, true_and] at h
            subst h
            exact ⟨b1, p1, b2, p2, b3, p3, b4, p4, p5, rfl, h2, h3, h4, h5⟩

theorem written_header_bytes (sizes : HeaderFieldSizes) (p : HeaderPolicy) (currentTime : Int)
    (updatesLastDecayedTime : Bool) (unigramCount bigramCount extendedRegionSize : Int)
    (outBuffer out : BufferWithExtendableBuffer)
    (h : p.fillInAndWriteHeaderToBuffer (headerReadWriteUtils sizes) currentTime
      updatesLastDecayedTime unigramCount bigramCount extendedRegionSize outBuffer
        = (true, out)) :
    ∃ (endPos : Nat),
      endPos = sizes.versionSize + sizes.flagSize + sizes.headerSizeFieldSize
        + (encodeAttributes (p.fillInHeader currentTime updatesLastDecayedTime unigramCount
            bigramCount extendedRegionSize p.mAttributeMap)).length ∧
      endPos ≤ max outBuffer.maxSize (sizes.versionSize + sizes.flagSize
        + sizes.headerSizeFieldSize) ∧
      sizes.versionSize + sizes.flagSize + sizes.headerSizeFieldSize ≤ outBuffer.maxSize ∧
      out.maxSize = outBuffer.maxSize ∧
      (∃ b2 b3 b4 : BufferWithExtendableBuffer,
        (headerReadWriteUtils sizes).writeDictionaryHeaderSize b2 0
            (sizes.versionSize + sizes.flagSize)
          = (true, b3, sizes.versionSize + sizes.flagSize + sizes.headerSizeFieldSize) ∧
        (headerReadWriteUtils sizes).writeDictionaryHeaderSize b4 endPos
            (sizes.versionSize + sizes.flagSize)
          = (true, out, sizes.versionSize + sizes.flagSize + sizes.headerSizeFieldSize)) ∧
      out.bytes = encodeUint sizes.versionSize p.mDictFormatVersion
        ++ encodeUint sizes.flagSize p.mDictionaryFlags
        ++ encodeUint sizes.headerSizeFieldSize endPos
        ++ encodeAttributes (p.fillInHeader currentTime updatesLastDecayedTime unigramCount
            bigramCount extendedRegionSize p.mAttributeMap)
        ++ outBuffer.bytes.drop endPos := by
  obtain ⟨b1, p1, b2, p2, b3, p3, b4, p4, p5, h1, h2, h3, h4, h5⟩ :=
    fillInAndWriteHeaderToBuffer_success _ _ _ _ _ _ _ _ _ h
  simp only [headerReadWriteUtils] at h1 h2 h3 h4 h5
  obtain ⟨hb1, hm1, hq1, hle1⟩ := writeBytes_written outBuffer [] outBuffer.bytes _ rfl b1 p1 h1
  subst hq1
  obtain ⟨hb2, hm2, hq2, hle2⟩ := writeBytes_written b1 _ _ _ hb1 b2 p2 h2
  subst hq2
  obtain ⟨hb3, hm3, hq3, hle3⟩ := writeBytes_written b2 _ _ _ hb2 b3 p3 h3
  subst hq3
  rcases hc : b3.writeBytes (encodeVarint (p.fillInHeader currentTime updatesLastDecayedTime
    unigramCount bigramCount extendedRegionSize p.mAttributeMap).length)
    (([] ++ encodeUint sizes.versionSize p.mDictFormatVersion
      ++ encodeUint sizes.flagSize p.mDictionaryFlags)
      ++ encodeUint sizes.headerSizeFieldSize 0).length with ⟨okc, bc, pc⟩
  rw [hc] at h4
  cases okc with
  | false => simp at h4
  | true =>
    simp only at h4
    obtain ⟨hbc, hmc, hqc, hlec⟩ := writeBytes_written b3 _ _ _ hb3 bc pc hc
    subst hqc
    obtain ⟨hb4, hm4, hq4, hle4⟩ := writeEntries_written _ bc _ _ hbc b4 p4 h4
    subst hq4
    have hb4r : b4.bytes = ([] ++ encodeUint sizes.versionSize p.mDictFormatVersion
        ++ encodeUint sizes.flagSize p.mDictionaryFlags)
        ++ (encodeUint sizes.headerSizeFieldSize 0
          ++ (encodeAttributes (p.fillInHeader currentTime updatesLastDecayedTime unigramCount
            bigramCount extendedRegionSize p.mAttributeMap)
          ++ List.drop (encodeEntries (p.fillInHeader currentTime updatesLastDecayedTime
              unigramCount bigramCount extendedRegionSize p.mAttributeMap)).length
            (List.drop (encodeVarint (p.fillInHeader currentTime updatesLastDecayedTime
              unigramCount bigramCount extendedRegionSize p.mAttributeMap).length).length
              (List.drop (encodeUint sizes.headerSizeFieldSize 0).length
                (List.drop (encodeUint sizes.flagSize p.mDictionaryFlags).length
                  (List.drop (encodeUint sizes.versionSize p.mDictFormatVersion).length
                    outBuffer.bytes)))))) := by
      rw [hb4]
      simp only [encodeAttributes, List.append_assoc]
    obtain ⟨hb5, hm5, hq5, _⟩ := writeBytes_written b4 _ _ _ hb4r out p5 h5
    subst hq5
    refine ⟨_, rfl, ?_, ?_, ?_, ⟨b2, b3, b4, ?_, ?_⟩, ?_⟩
    · simp only [List.nil_append, List.length_append, encodeUint_length, encodeAttributes]
        at hle4 hlec ⊢
      rw [hmc, hm3, hm2, hm1] at hle4
      omega
    · simp only [List.nil_append, List.length_append, encodeUint_length] at hle3
      rw [hm2, hm1] at hle3
      exact hle3
    · rw [hm5, hm4, hmc, hm3, hm2, hm1]
    · simp only [List.nil_append, List.length_append, encodeUint_length] at h3
      exact h3
    · simp only [List.nil_append, List.length_append, encodeUint_length, Nat.add_assoc]
        at h5
      simp only [headerReadWriteUtils, encodeAttributes, List.length_append, Nat.add_assoc]
      exact h5
    · rw [hb5]
      simp only [List.nil_append, List.length_append, encodeUint_length, List.append_assoc,
        encodeAttributes]
      have hdrop : ∀ (X : List Nat), List.drop sizes.headerSizeFieldSize
          (encodeUint sizes.headerSizeFieldSize 0 ++ X) = X := by
        intro X
        have := List.drop_left (encodeUint sizes.headerSizeFieldSize 0) X
        rw [encodeUint_length] at this
        exact this
      rw [hdrop]
      simp only [List.drop_drop, encodeUint_length, List.length_append, Nat.add_assoc]

/-- C1, as amended: after a successful `fillInAndWriteHeaderToBuffer` on a buffer whose capacity
is in the range of the size field, the value stored in the header-size field is the final
writing position `endPos`: the number of bytes from the start of the buffer, the version,
flags and size fields included, to the end of the attribute blob. The field is written at the
position reached after the version and flags fields, where the placeholder 0 was written
before. Skipping `endPos` bytes from the start of the buffer passes exactly the version, the
flags, the size field and the attribute blob; the bytes that follow are those of the buffer
before the call. -/
theorem headerSize_is_final_writing_position (sizes : HeaderFieldSizes) (p : HeaderPolicy)
    (currentTime : Int) (updatesLastDecayedTime : Bool)
    (unigramCount bigramCount extendedRegionSize : Int)
    (outBuffer out : BufferWithExtendableBuffer)
    (h : p.fillInAndWriteHeaderToBuffer (headerReadWriteUtils sizes) currentTime
      updatesLastDecayedTime unigramCount bigramCount extendedRegionSize outBuffer
        = (true, out))
    (hcap : outBuffer.maxSize < 256 ^ sizes.headerSizeFieldSize) :
    let blob := encodeAttributes (p.fillInHeader currentTime updatesLastDecayedTime
      unigramCount bigramCount extendedRegionSize p.mAttributeMap)
    let headerSizeFieldPos := sizes.versionSize + sizes.flagSize
    let endPos := headerSizeFieldPos + sizes.headerSizeFieldSize + blob.length
    readUint out.bytes sizes.headerSizeFieldSize headerSizeFieldPos = endPos ∧
      (∃ b2 b3 b4 : BufferWithExtendableBuffer,
        (headerReadWriteUtils sizes).writeDictionaryHeaderSize b2 0 headerSizeFieldPos
          = (true, b3, headerSizeFieldPos + sizes.headerSizeFieldSize) ∧
        (headerReadWriteUtils sizes).writeDictionaryHeaderSize b4 endPos headerSizeFieldPos
          = (true, out, headerSizeFieldPos + sizes.headerSizeFieldSize)) ∧
      out.bytes.take endPos
        = encodeUint sizes.versionSize p.mDictFormatVersion
          ++ encodeUint sizes.flagSize p.mDictionaryFlags
          ++ encodeUint sizes.headerSizeFieldSize endPos ++ blob ∧
      out.bytes.drop endPos = outBuffer.bytes.drop endPos := by
  intro blob headerSizeFieldPos endPos
  obtain ⟨e, he, hle, hfix, _, hwrites, hbytes⟩ :=
    written_header_bytes sizes p currentTime updatesLastDecayedTime unigramCount bigramCount
      extendedRegionSize outBuffer out h
  have hee : e = endPos := he
  subst hee
  have hlen : (encodeUint sizes.versionSize p.mDictFormatVersion
      ++ encodeUint sizes.flagSize p.mDictionaryFlags
      ++ encodeUint sizes.headerSizeFieldSize endPos ++ blob).length = endPos := by
    simp only [List.length_append, encodeUint_length]
  refine ⟨?_, hwrites, ?_, ?_⟩
  · unfold readUint
    rw [hbytes]
    have h1 : (encodeUint sizes.versionSize p.mDictFormatVersion
        ++ encodeUint sizes.flagSize p.mDictionaryFlags).length = headerSizeFieldPos := by
      simp only [List.length_append, encodeUint_length]
    simp only [List.append_assoc]
    rw [← List.append_assoc, List.drop_left' h1,
      List.take_left' (encodeUint_length _ _), decodeUint_encodeUint]
    apply Nat.mod_eq_of_lt
    have h2 : endPos ≤ max outBuffer.maxSize
        (sizes.versionSize + sizes.flagSize + sizes.headerSizeFieldSize) := hle
    have h3 := max_le_iff.mpr ⟨Nat.le_refl outBuffer.maxSize, hfix⟩
    omega
  · rw [hbytes]
    exact List.take_left' hlen
  · rw [hbytes]
    exact List.drop_left' hlen

/-- C9, as amended: when `fillInAndWriteHeaderToBuffer` on a policy holding the store `S`
succeeds, `createAttributeMapAndReadAllAttributes` applied to the written bytes returns a
store equal, attribute for attribute, to the filled-in working copy `fillInHeader(S)` that
was written: for every key the two have the same value or both have none. -/
theorem decode_written_header (sizes : HeaderFieldSizes) (p : HeaderPolicy)
    (currentTime : Int) (updatesLastDecayedTime : Bool)
    (unigramCount bigramCount extendedRegionSize : Int)
    (outBuffer out : BufferWithExtendableBuffer)
    (h : p.fillInAndWriteHeaderToBuffer (headerReadWriteUtils sizes) currentTime
      updatesLastDecayedTime unigramCount bigramCount extendedRegionSize outBuffer
        = (true, out))
    (k : List Int) :
    (HeaderPolicy.createAttributeMapAndReadAllAttributes (headerReadWriteUtils sizes)
        out.bytes).find k
      = (p.fillInHeader currentTime updatesLastDecayedTime unigramCount bigramCount
          extendedRegionSize p.mAttributeMap).find k := by
  obtain ⟨e, _, _, _, _, _, hbytes⟩ :=
    written_header_bytes sizes p currentTime updatesLastDecayedTime unigramCount bigramCount
      extendedRegionSize outBuffer out h
  have h1 : (encodeUint sizes.versionSize p.mDictFormatVersion
      ++ encodeUint sizes.flagSize p.mDictionaryFlags
      ++ encodeUint sizes.headerSizeFieldSize e).length
        = sizes.versionSize + sizes.flagSize + sizes.headerSizeFieldSize := by
    simp only [List.length_append, encodeUint_length]
  simp only [HeaderPolicy.createAttributeMapAndReadAllAttributes, headerReadWriteUtils]
  rw [hbytes, List.append_assoc, List.drop_left' h1]
  simp only [encodeAttributes, List.append_assoc, decodeVarint_encodeVarint,
    decodeEntries_encodeEntries]
  rw [find_foldl_insert]
  rfl

/-! ### The cost multiplier -/

theorem roundHalfEven_sub_le (q : ℚ) : |(roundHalfEven q : ℚ) - q| ≤ 1 / 2 := by
  have h1 := Int.floor_le q
  have h2 := Int.lt_floor_add_one q
  unfold roundHalfEven
  rw [abs_le]
  split_ifs with ha hb hc
  · constructor <;> linarith
  · push_cast; constructor <;> linarith
  · constructor <;> linarith
  · push_cast; constructor <;> linarith

theorem floor_le_roundHalfEven (q : ℚ) : ⌊q⌋ ≤ roundHalfEven q := by
  unfold roundHalfEven
  split_ifs <;> omega

theorem float32Exponent_eq (x : ℚ) (e : ℤ) (he : -126 ≤ e) (h1 : (2 : ℚ) ^ e ≤ |x|)
    (h2 : |x| < (2 : ℚ) ^ (e + 1)) : float32Exponent x = e := by
  have hpos : 0 < |x| := lt_of_lt_of_le (by positivity) h1
  have hlog : Int.log 2 |x| = e := by
    apply le_antisymm
    · have := (Int.lt_zpow_iff_log_lt (b := 2) (by norm_num) hpos (x := e + 1)).mp
        (by exact_mod_cast h2)
      omega
    · exact (Int.zpow_le_iff_le_log (b := 2) (by norm_num) hpos).mp (by exact_mod_cast h1)
  unfold float32Exponent
  rw [hlog]
  exact max_eq_left he


theorem toFloat_bounds (x : ℚ) (hx : (2 : ℚ) ^ (-126 : ℤ) ≤ x) :
    0 < toFloat x ∧ x * (1 - 1 / 2 ^ 24) ≤ toFloat x ∧ toFloat x ≤ x * (1 + 1 / 2 ^ 24) := by
  have hpos : 0 < x := lt_of_lt_of_le (by positivity) hx
  have habs : |x| = x := abs_of_pos hpos
  have hlo : (2 : ℚ) ^ Int.log 2 x ≤ x := by
    have := Int.zpow_log_le_self (b := 2) (by norm_num) hpos
    exact_mod_cast this
  have hge : -126 ≤ Int.log 2 x :=
    (Int.zpow_le_iff_le_log (b := 2) (by norm_num) hpos).mp (by exact_mod_cast hx)
  have hexp : float32Exponent x = Int.log 2 x := by
    unfold float32Exponent
    rw [habs]
    exact max_eq_left hge
  have hu : (0 : ℚ) < 2 ^ (Int.log 2 x - 23) := by positivity
  have hsplit : (2 : ℚ) ^ Int.log 2 x = 2 ^ 23 * 2 ^ (Int.log 2 x - 23) := by
    rw [show ((2 : ℚ) ^ 23) = (2 : ℚ) ^ (23 : ℤ) by norm_cast, ← zpow_add₀ (by norm_num)]
    congr 1
    ring
  have hquot : (2 : ℚ) ^ 23 ≤ x / 2 ^ (Int.log 2 x - 23) := by
    rw [le_div_iff₀ hu, ← hsplit]
    exact hlo
  have hR := roundHalfEven_sub_le (x / 2 ^ (Int.log 2 x - 23))
  have hfloor : (2 : ℤ) ^ 23 ≤ roundHalfEven (x / 2 ^ (Int.log 2 x - 23)) := by
    refine le_trans ?_ (floor_le_roundHalfEven _)
    rw [Int.le_floor]
    exact_mod_cast hquot
  have hRq : (2 : ℚ) ^ 23 ≤ (roundHalfEven (x / 2 ^ (Int.log 2 x - 23)) : ℚ) := by
    exact_mod_cast hfloor
  have hval : toFloat x
      = (roundHalfEven (x / 2 ^ (Int.log 2 x - 23)) : ℚ) * 2 ^ (Int.log 2 x - 23) := by
    unfold toFloat
    rw [if_neg (ne_of_gt hpos), hexp]
  have hxu : x = x / 2 ^ (Int.log 2 x - 23) * 2 ^ (Int.log 2 x - 23) := by
    field_simp
  rw [abs_le] at hR
  obtain ⟨hR1, hR2⟩ := hR
  have hhalf : (2 : ℚ) ^ (Int.log 2 x - 23) / 2 ≤ x / 2 ^ 24 := by
    have : (2 : ℚ) ^ (Int.log 2 x - 23) = 2 ^ Int.log 2 x / 2 ^ 23 := by
      rw [hsplit]; field_simp
    rw [this]
    have : (2 : ℚ) ^ Int.log 2 x / 2 ^ 23 / 2 = 2 ^ Int.log 2 x / 2 ^ 24 := by
      rw [div_div]
      norm_num
    rw [this]
    exact div_le_div_of_nonneg_right hlo (by positivity)
  have e1 : toFloat x - x
      = ((roundHalfEven (x / 2 ^ (Int.log 2 x - 23)) : ℚ) - x / 2 ^ (Int.log 2 x - 23))
        * 2 ^ (Int.log 2 x - 23) := by
    rw [hval]
    field_simp
  have hup : toFloat x - x ≤ 2 ^ (Int.log 2 x - 23) / 2 := by
    rw [e1]
    nlinarith
  have hdown : -(2 ^ (Int.log 2 x - 23) / 2) ≤ toFloat x - x := by
    rw [e1]
    nlinarith
  refine ⟨?_, ?_, ?_⟩
  · rw [hval]
    positivity
  · linarith
  · linarith


theorem toFloat_eq_of_round (x : ℚ) (e z : ℤ) (he : -126 ≤ e) (h1 : (2 : ℚ) ^ e ≤ |x|)
    (h2 : |x| < (2 : ℚ) ^ (e + 1)) (hz1 : (z : ℚ) ≤ x / 2 ^ (e - 23))
    (hz2 : x / 2 ^ (e - 23) - z < 1 / 2) : toFloat x = z * 2 ^ (e - 23) := by
  have hne : x ≠ 0 := by
    intro h0
    rw [h0, abs_zero] at h1
    have : (0 : ℚ) < 2 ^ e := by positivity
    linarith
  have hfloor : ⌊x / 2 ^ (e - 23)⌋ = z := by
    rw [Int.floor_eq_iff]
    constructor
    · exact hz1
    · linarith
  unfold toFloat
  rw [if_neg hne, float32Exponent_eq x e he h1 h2]
  unfold roundHalfEven
  rw [hfloor, if_pos hz2]

theorem toFloat_eq_self (x : ℚ) (e m : ℤ) (he : -126 ≤ e) (h1 : (2 : ℚ) ^ e ≤ |x|)
    (h2 : |x| < (2 : ℚ) ^ (e + 1)) (hm : x = m * 2 ^ (e - 23)) : toFloat x = x := by
  have hu : (0 : ℚ) < 2 ^ (e - 23) := by positivity
  have hq : x / 2 ^ (e - 23) = m := by
    rw [hm]
    field_simp
  rw [toFloat_eq_of_round x e m he h1 h2 (le_of_eq hq.symm) (by rw [hq]; norm_num)]
  exact hm.symm

theorem toFloat_intCast (n : ℤ) (hn : |n| < 2 ^ 24) : toFloat (n : ℚ) = n := by
  by_cases h0 : n = 0
  · subst h0
    simp [toFloat]
  have hpos : (0 : ℚ) < |(n : ℚ)| := by
    rw [abs_pos]
    exact_mod_cast h0
  have hone : (1 : ℚ) ≤ |(n : ℚ)| := by
    have : (1 : ℤ) ≤ |n| := Int.one_le_abs h0
    exact_mod_cast this
  have hlt : |(n : ℚ)| < (2 : ℚ) ^ (24 : ℤ) := by
    have h24 : |(n : ℚ)| < 2 ^ 24 := by exact_mod_cast hn
    exact_mod_cast h24
  have hlo : 0 ≤ Int.log 2 |(n : ℚ)| :=
    (Int.zpow_le_iff_le_log (b := 2) (by norm_num) hpos).mp (by simpa using hone)
  have hhi : Int.log 2 |(n : ℚ)| < 24 :=
    (Int.lt_zpow_iff_log_lt (b := 2) (by norm_num) hpos).mp (by exact_mod_cast hlt)
  have hA := Int.zpow_log_le_self (b := 2) (r := |(n : ℚ)|) (by norm_num) hpos
  have hB := Int.lt_zpow_succ_log_self (b := 2) (by norm_num) |(n : ℚ)|
  obtain ⟨k, hk⟩ : ∃ k : ℕ, (k : ℤ) = 23 - Int.log 2 |(n : ℚ)| :=
    ⟨(23 - Int.log 2 |(n : ℚ)|).toNat, by omega⟩
  refine toFloat_eq_self (n : ℚ) (Int.log 2 |(n : ℚ)|) (n * 2 ^ k) (by omega)
    (by exact_mod_cast hA) (by exact_mod_cast hB) ?_
  have hk2 : Int.log 2 |(n : ℚ)| - 23 = -(k : ℤ) := by omega
  rw [hk2]
  push_cast
  rw [zpow_neg, zpow_natCast]
  field_simp

theorem toFloat_quotient_bounds (rate : ℤ) (h1 : 0 < rate) (h2 : rate < 2 ^ 31) :
    0 < toFloat (rate : ℚ) ∧ 0 < toFloat (100 / toFloat (rate : ℚ)) ∧
      |toFloat (100 / toFloat (rate : ℚ)) - 100 / (rate : ℚ)| ≤ 100 / (rate : ℚ) / 2 ^ 22 := by
  have hr1 : (1 : ℚ) ≤ (rate : ℚ) := by exact_mod_cast h1
  have hr2 : (rate : ℚ) < 2 ^ 31 := by exact_mod_cast h2
  have hr0 : (0 : ℚ) < (rate : ℚ) := by linarith
  obtain ⟨hd0, hd1, hd2⟩ := toFloat_bounds (rate : ℚ)
    (le_trans (by norm_num [zpow_neg]) hr1)
  have hdle : toFloat (rate : ℚ) ≤ 2 ^ 32 := by nlinarith
  have hq0 : (0 : ℚ) < 100 / toFloat (rate : ℚ) := by positivity
  have hqlo : (2 : ℚ) ^ (-126 : ℤ) ≤ 100 / toFloat (rate : ℚ) := by
    rw [le_div_iff₀ hd0]
    have : (2 : ℚ) ^ (-126 : ℤ) * 2 ^ 32 ≤ 100 := by norm_num [zpow_neg]
    have hnn : (0 : ℚ) ≤ 2 ^ (-126 : ℤ) := by positivity
    nlinarith
  obtain ⟨hf0, hf1, hf2⟩ := toFloat_bounds (100 / toFloat (rate : ℚ)) hqlo
  have hqd : 100 / toFloat (rate : ℚ) * toFloat (rate : ℚ) = 100 := by field_simp
  have hxr : 100 / (rate : ℚ) * (rate : ℚ) = 100 := by field_simp
  have hx0 : (0 : ℚ) < 100 / (rate : ℚ) := by positivity
  refine ⟨hd0, hf0, ?_⟩
  rw [abs_le]
  constructor
  · -- lower bound
    have key : 100 / (rate : ℚ) * (1 - 4 / 2 ^ 24) ≤ 100 / toFloat (rate : ℚ) * (1 - 1 / 2 ^ 24) := by
      have hpos2 : (0:ℚ) < 1 - 1 / 2 ^ 24 := by norm_num
      rw [div_mul_eq_mul_div, div_mul_eq_mul_div, div_le_div_iff₀ hr0 hd0]
      nlinarith
    have e22 : 100 / (rate : ℚ) / 2 ^ 22 = 100 / (rate : ℚ) * (4 / 2 ^ 24) := by
      field_simp; ring
    rw [e22]
    linarith
  · have key : 100 / toFloat (rate : ℚ) * (1 + 1 / 2 ^ 24) ≤ 100 / (rate : ℚ) * (1 + 4 / 2 ^ 24) := by
      rw [div_mul_eq_mul_div, div_mul_eq_mul_div, div_le_div_iff₀ hd0 hr0]
      nlinarith
    have e22 : 100 / (rate : ℚ) / 2 ^ 22 = 100 / (rate : ℚ) * (4 / 2 ^ 24) := by
      field_simp; ring
    rw [e22]
    linarith

theorem toFloat_hundred_thirds : toFloat (100 / toFloat 3) = 8738133 / 262144 := by
  have h3 : toFloat 3 = 3 := by
    have := toFloat_intCast 3 (by norm_num)
    simpa using this
  rw [h3, toFloat_eq_of_round (100 / 3) 5 8738133 (by norm_num)
    (by rw [abs_of_pos (by norm_num)]; norm_num)
    (by rw [abs_of_pos (by norm_num)]; norm_num)
    (by norm_num [zpow_neg]) (by norm_num [zpow_neg])]
  norm_num [zpow_neg]

theorem parseInt32_range (text : List Int) (value : Int) (h : parseInt32 text = some value) :
    -2 ^ 31 ≤ value ∧ value < 2 ^ 31 := by
  unfold parseInt32 at h
  simp only at h
  split at h
  · cases h
  · split at h
    · rename_i hr
      simp only [Option.some.injEq] at h
      subst h
      exact hr
    · cases h

theorem readIntAttributeValue_lt (m : AttributeMap) (key : String) :
    readIntAttributeValue m key 100 < 2 ^ 31 := by
  unfold readIntAttributeValue
  split
  · norm_num
  · split
    · norm_num
    · rename_i value hv
      exact (parseInt32_range _ _ hv).2

/-- C6, as written, fails: with the attribute MULTIPLE_WORDS_DEMOTION_RATE set to "3" the rate
is 3 and `readMultipleWordCostMultiplier` returns the `float` 8738133 / 262144, which is
33.3333321 and not 100 / 3. -/
theorem readMultipleWordCostMultiplier_counterexample :
    readIntAttributeValue
        (HeaderPolicy.mk 3 0
          [(insertCharactersIntoVector MULTIPLE_WORDS_DEMOTION_RATE_KEY, [51])]
          []).mAttributeMap MULTIPLE_WORDS_DEMOTION_RATE_KEY 100 = 3 ∧
      (HeaderPolicy.mk 3 0
          [(insertCharactersIntoVector MULTIPLE_WORDS_DEMOTION_RATE_KEY, [51])]
          []).readMultipleWordCostMultiplier 10000000 = 8738133 / 262144 ∧
      (HeaderPolicy.mk 3 0
          [(insertCharactersIntoVector MULTIPLE_WORDS_DEMOTION_RATE_KEY, [51])]
          []).readMultipleWordCostMultiplier 10000000 ≠ 100 / 3 := by
  have hrate : readIntAttributeValue
      (HeaderPolicy.mk 3 0
        [(insertCharactersIntoVector MULTIPLE_WORDS_DEMOTION_RATE_KEY, [51])]
        []).mAttributeMap MULTIPLE_WORDS_DEMOTION_RATE_KEY 100 = 3 := by decide
  have hval : (HeaderPolicy.mk 3 0
      [(insertCharactersIntoVector MULTIPLE_WORDS_DEMOTION_RATE_KEY, [51])]
      []).readMultipleWordCostMultiplier 10000000 = 8738133 / 262144 := by
    simp only [HeaderPolicy.readMultipleWordCostMultiplier,
      DEFAULT_MULTIPLE_WORDS_DEMOTION_RATE, MULTIPLE_WORD_COST_MULTIPLIER_SCALE, hrate]
    rw [if_neg (by decide)]
    exact_mod_cast toFloat_hundred_thirds
  refine ⟨hrate, hval, ?_⟩
  rw [hval]
  norm_num

/-- C6, as amended: with `rate` the integer value of the MULTIPLE_WORDS_DEMOTION_RATE attribute
(100 when the attribute is absent or malformed), `readMultipleWordCostMultiplier` returns the
sentinel `MAX_VALUE_FOR_WEIGHTING` as a `float` (the sentinel itself when it is below
`2 ^ 24`) for every `rate <= 0`. For every `rate > 0` it returns the single precision
quotient of `100.0f` by the `float` of `rate`: the divisor is positive, the result is
positive, and it differs from `100 / rate` by at most the part `2 ^ -22` of `100 / rate`. A
rate of 100, or an absent attribute, gives 1, and a rate of 50 gives 2. -/
theorem readMultipleWordCostMultiplier_rounded (maxValueForWeighting : Int)
    (p : HeaderPolicy) :
    let rate := readIntAttributeValue p.mAttributeMap MULTIPLE_WORDS_DEMOTION_RATE_KEY 100
    let result := p.readMultipleWordCostMultiplier maxValueForWeighting
    (p.mAttributeMap.find (insertCharactersIntoVector MULTIPLE_WORDS_DEMOTION_RATE_KEY) = none
        → rate = 100 ∧ result = 1) ∧
      (∀ text : List Int,
        p.mAttributeMap.find (insertCharactersIntoVector MULTIPLE_WORDS_DEMOTION_RATE_KEY)
          = some text → parseInt32 text = none → rate = 100) ∧
      (rate ≤ 0 → result = toFloat (maxValueForWeighting : ℚ) ∧
        (|maxValueForWeighting| < 2 ^ 24 → result = (maxValueForWeighting : ℚ))) ∧
      (0 < rate → result = toFloat (100 / toFloat (rate : ℚ)) ∧ 0 < toFloat (rate : ℚ) ∧
        0 < result ∧ |result - 100 / (rate : ℚ)| ≤ 100 / (rate : ℚ) / 2 ^ 22) ∧
      (rate = 100 → result = 1) ∧
      (rate = 50 → result = 2) := by
  intro rate result
  have h100 : toFloat 100 = 100 := by
    have := toFloat_intCast 100 (by norm_num)
    simpa using this
  have h50 : toFloat 50 = 50 := by
    have := toFloat_intCast 50 (by norm_num)
    simpa using this
  have h1 : toFloat 1 = 1 := by
    have := toFloat_intCast 1 (by norm_num)
    simpa using this
  have h2 : toFloat 2 = 2 := by
    have := toFloat_intCast 2 (by norm_num)
    simpa using this
  have hpos : 0 < rate → result = toFloat (100 / toFloat (rate : ℚ)) := by
    intro hr
    have hn : ¬ rate ≤ 0 := by omega
    simp only [result, HeaderPolicy.readMultipleWordCostMultiplier,
      DEFAULT_MULTIPLE_WORDS_DEMOTION_RATE, MULTIPLE_WORD_COST_MULTIPLIER_SCALE]
    rw [if_neg hn]
  have hhundred : rate = 100 → result = 1 := by
    intro hr
    have hr0 : 0 < rate := by omega
    rw [hpos hr0, hr]
    norm_num [h100, h1]
  refine ⟨?_, ?_, ?_, ?_, hhundred, ?_⟩
  · intro habsent
    have hr : rate = 100 := by
      simp only [rate, readIntAttributeValue, habsent]
    exact ⟨hr, hhundred hr⟩
  · intro text hfound hmalformed
    simp only [rate, readIntAttributeValue, hfound, hmalformed]
  · intro hr
    have hres : result = toFloat (maxValueForWeighting : ℚ) := by
      simp only [result, HeaderPolicy.readMultipleWordCostMultiplier,
        DEFAULT_MULTIPLE_WORDS_DEMOTION_RATE]
      rw [if_pos hr]
    exact ⟨hres, fun hsmall => by rw [hres, toFloat_intCast _ hsmall]⟩
  · intro hr
    obtain ⟨hd, hq, hbound⟩ :=
      toFloat_quotient_bounds rate hr (readIntAttributeValue_lt _ _)
    rw [hpos hr]
    exact ⟨rfl, hd, hq, hbound⟩
  · intro hr
    have hr0 : 0 < rate := by omega
    rw [hpos hr0, hr]
    norm_num [h50, h2]

/-! ### The theorems at concrete inputs -/

theorem readHeaderValueOrQuestionMark_found_witness :
    ((2 : Int) ≤ 3 ∧
      (HeaderPolicy.mk 3 0 [(insertCharactersIntoVector "locale", [101, 110, 95, 85, 83])]
          []).mAttributeMap.find (insertCharactersIntoVector "locale")
        = some [101, 110, 95, 85, 83] ∧
      ([101, 110, 95, 85, 83] : List Int).length < 2 ^ 31) ∧
    ((HeaderPolicy.mk 3 0 [(insertCharactersIntoVector "locale", [101, 110, 95, 85, 83])]
        []).readHeaderValueOrQuestionMark "locale" (fun _ => 7) 3 2 = 0 ∧
      (HeaderPolicy.mk 3 0 [(insertCharactersIntoVector "locale", [101, 110, 95, 85, 83])]
        []).readHeaderValueOrQuestionMark "locale" (fun _ => 7) 3 3 = 7) :=
  ⟨⟨by decide, by decide, by decide⟩,
    (readHeaderValueOrQuestionMark_found
      (HeaderPolicy.mk 3 0 [(insertCharactersIntoVector "locale", [101, 110, 95, 85, 83])] [])
      "locale" (fun _ => 7) 3 [101, 110, 95, 85, 83] (by decide) (by decide) (by decide)).2.1,
    (readHeaderValueOrQuestionMark_found
      (HeaderPolicy.mk 3 0 [(insertCharactersIntoVector "locale", [101, 110, 95, 85, 83])] [])
      "locale" (fun _ => 7) 3 [101, 110, 95, 85, 83] (by decide) (by decide)
      (by decide)).2.2 3 (by decide)⟩

theorem readHeaderValueOrQuestionMark_missing_witness :
    ((2 : Int) ≤ 2 ∧
      (HeaderPolicy.mk 3 0 [(insertCharactersIntoVector "locale", [101, 110])]
          []).mAttributeMap.find (insertCharactersIntoVector "date") = none) ∧
    ((HeaderPolicy.mk 3 0 [(insertCharactersIntoVector "locale", [101, 110])]
        []).readHeaderValueOrQuestionMark "date" (fun _ => 7) 2 0 = 63 ∧
      (HeaderPolicy.mk 3 0 [(insertCharactersIntoVector "locale", [101, 110])]
        []).readHeaderValueOrQuestionMark "date" (fun _ => 7) 2 1 = 0 ∧
      (HeaderPolicy.mk 3 0 [(insertCharactersIntoVector "locale", [101, 110])]
        []).readHeaderValueOrQuestionMark "date" (fun _ => 7) 2 2 = 7) :=
  ⟨⟨by decide, by decide⟩,
    (readHeaderValueOrQuestionMark_missing
      (HeaderPolicy.mk 3 0 [(insertCharactersIntoVector "locale", [101, 110])] [])
      "date" (fun _ => 7) 2 (by decide) (by decide)).1,
    (readHeaderValueOrQuestionMark_missing
      (HeaderPolicy.mk 3 0 [(insertCharactersIntoVector "locale", [101, 110])] [])
      "date" (fun _ => 7) 2 (by decide) (by decide)).2.1,
    (readHeaderValueOrQuestionMark_missing
      (HeaderPolicy.mk 3 0 [(insertCharactersIntoVector "locale", [101, 110])] [])
      "date" (fun _ => 7) 2 (by decide) (by decide)).2.2 2 (by decide) (by decide)⟩

theorem readHeaderValueOrQuestionMark_small_witness :
    (1 : Int) < 2 ∧
    (HeaderPolicy.mk 3 0 [(insertCharactersIntoVector "locale", [101, 110])]
        []).readHeaderValueOrQuestionMark "locale" (fun _ => 7) 1
      = Function.update (fun _ => 7) 0 0 :=
  ⟨by decide,
    (readHeaderValueOrQuestionMark_small
      (HeaderPolicy.mk 3 0 [(insertCharactersIntoVector "locale", [101, 110])] [])
      "locale" (fun _ => 7) 1 (by decide)).trans (if_neg (by decide))⟩

theorem fillInHeader_frame_witness :
    (insertCharactersIntoVector MULTIPLE_WORDS_DEMOTION_RATE_KEY
        ≠ insertCharactersIntoVector UNIGRAM_COUNT_KEY ∧
      insertCharactersIntoVector MULTIPLE_WORDS_DEMOTION_RATE_KEY
        ≠ insertCharactersIntoVector BIGRAM_COUNT_KEY ∧
      insertCharactersIntoVector MULTIPLE_WORDS_DEMOTION_RATE_KEY
        ≠ insertCharactersIntoVector EXTENDED_REGION_SIZE_KEY ∧
      insertCharactersIntoVector MULTIPLE_WORDS_DEMOTION_RATE_KEY
        ≠ insertCharactersIntoVector DATE_KEY ∧
      insertCharactersIntoVector MULTIPLE_WORDS_DEMOTION_RATE_KEY
        ≠ insertCharactersIntoVector LOCALE_KEY ∧
      insertCharactersIntoVector MULTIPLE_WORDS_DEMOTION_RATE_KEY
        ≠ insertCharactersIntoVector LAST_DECAYED_TIME_KEY) ∧
    ((HeaderPolicy.mk 3 0 [] [101, 110]).fillInHeader 1383000000 true 500 200 0
        [(insertCharactersIntoVector MULTIPLE_WORDS_DEMOTION_RATE_KEY, [53, 48])]).find
        (insertCharactersIntoVector MULTIPLE_WORDS_DEMOTION_RATE_KEY)
      = AttributeMap.find
          [(insertCharactersIntoVector MULTIPLE_WORDS_DEMOTION_RATE_KEY, [53, 48])]
          (insertCharactersIntoVector MULTIPLE_WORDS_DEMOTION_RATE_KEY) :=
  ⟨⟨by decide, by decide, by decide, by decide, by decide, by decide⟩,
    fillInHeader_frame (HeaderPolicy.mk 3 0 [] [101, 110]) 1383000000 true 500 200 0
      [(insertCharactersIntoVector MULTIPLE_WORDS_DEMOTION_RATE_KEY, [53, 48])]
      (insertCharactersIntoVector MULTIPLE_WORDS_DEMOTION_RATE_KEY)
      (by decide) (by decide) (by decide) (by decide) (by decide) (by decide)⟩

theorem eq_true_pair {α : Type} (x : Bool × α) (h : x.1 = true) : x = (true, x.2) := by
  obtain ⟨a, b⟩ := x
  simp only at h
  subst h
  rfl

/-- C1, as written, fails: with fields of 2, 2 and 4 bytes, an empty attribute map and an empty
buffer of capacity 1000, the write succeeds and ends at position 133, so that the first byte
following the attribute blob is at 133 and the blob with its 125 bytes is all that follows the
size field, which ends at position 8. The size field holds 133, not 133 - 8 = 125, and
skipping 133 bytes after the size field leads to position 141, not 133. -/
theorem headerSize_counterexample :
    ((HeaderPolicy.mk 3 0 [] []).fillInAndWriteHeaderToBuffer (headerReadWriteUtils ⟨2, 2, 4⟩)
      0 false 0 0 0 ⟨[], 1000⟩).1 = true ∧
    ((HeaderPolicy.mk 3 0 [] []).fillInAndWriteHeaderToBuffer (headerReadWriteUtils ⟨2, 2, 4⟩)
      0 false 0 0 0 ⟨[], 1000⟩).2.bytes.length = 133 ∧
    (encodeAttributes ((HeaderPolicy.mk 3 0 [] []).fillInHeader 0 false 0 0 0 [])).length
      = 125 ∧
    readUint
      ((HeaderPolicy.mk 3 0 [] []).fillInAndWriteHeaderToBuffer (headerReadWriteUtils ⟨2, 2, 4⟩)
      0 false 0 0 0 ⟨[], 1000⟩).2.bytes
      4 (2 + 2) = 133 ∧
    readUint
      ((HeaderPolicy.mk 3 0 [] []).fillInAndWriteHeaderToBuffer (headerReadWriteUtils ⟨2, 2, 4⟩)
      0 false 0 0 0 ⟨[], 1000⟩).2.bytes
      4 (2 + 2) ≠ 133 - (2 + 2 + 4) ∧
    (2 + 2 + 4) + readUint
      ((HeaderPolicy.mk 3 0 [] []).fillInAndWriteHeaderToBuffer (headerReadWriteUtils ⟨2, 2, 4⟩)
      0 false 0 0 0 ⟨[], 1000⟩).2.bytes
      4 (2 + 2) ≠ 133 := by
  decide!

set_option maxRecDepth 100000 in
theorem headerSize_is_final_writing_position_witness :
    (((HeaderPolicy.mk 3 0 [] []).fillInAndWriteHeaderToBuffer (headerReadWriteUtils ⟨2, 2, 4⟩)
      0 false 0 0 0 ⟨[], 1000⟩)
        = (true,
          ((HeaderPolicy.mk 3 0 [] []).fillInAndWriteHeaderToBuffer (headerReadWriteUtils ⟨2, 2, 4⟩)
      0 false 0 0 0 ⟨[], 1000⟩).2) ∧
      (1000 : Nat) < 256 ^ 4) ∧
    readUint
      ((HeaderPolicy.mk 3 0 [] []).fillInAndWriteHeaderToBuffer (headerReadWriteUtils ⟨2, 2, 4⟩)
      0 false 0 0 0 ⟨[], 1000⟩).2.bytes
      4 (2 + 2)
      = 2 + 2 + 4
        + (encodeAttributes
            ((HeaderPolicy.mk 3 0 [] []).fillInHeader 0 false 0 0 0 [])).length :=
  ⟨⟨eq_true_pair _ (by decide!), by decide⟩,
    (headerSize_is_final_writing_position ⟨2, 2, 4⟩ (HeaderPolicy.mk 3 0 [] []) 0 false 0 0 0
      ⟨[], 1000⟩ _ (eq_true_pair _ (by decide!)) (by decide)).1⟩

/-- C9, as written, fails: the header written for a policy whose store is empty decodes to a
store that holds UNIGRAM_COUNT with the text "0", which the store of the policy does not
hold: the decoded store is not equal to the store of the policy. -/
theorem decode_written_header_counterexample :
    ((HeaderPolicy.mk 3 0 [] []).fillInAndWriteHeaderToBuffer (headerReadWriteUtils ⟨2, 2, 4⟩)
      0 false 0 0 0 ⟨[], 1000⟩).1 = true ∧
    (HeaderPolicy.createAttributeMapAndReadAllAttributes (headerReadWriteUtils ⟨2, 2, 4⟩)
      ((HeaderPolicy.mk 3 0 [] []).fillInAndWriteHeaderToBuffer (headerReadWriteUtils ⟨2, 2, 4⟩)
      0 false 0 0 0 ⟨[], 1000⟩).2.bytes).find
        (insertCharactersIntoVector UNIGRAM_COUNT_KEY) = some [48] ∧
    (HeaderPolicy.mk 3 0 [] []).mAttributeMap.find
      (insertCharactersIntoVector UNIGRAM_COUNT_KEY) = none ∧
    (HeaderPolicy.createAttributeMapAndReadAllAttributes (headerReadWriteUtils ⟨2, 2, 4⟩)
      ((HeaderPolicy.mk 3 0 [] []).fillInAndWriteHeaderToBuffer (headerReadWriteUtils ⟨2, 2, 4⟩)
      0 false 0 0 0 ⟨[], 1000⟩).2.bytes).find
        (insertCharactersIntoVector UNIGRAM_COUNT_KEY)
      ≠ (HeaderPolicy.mk 3 0 [] []).mAttributeMap.find
          (insertCharactersIntoVector UNIGRAM_COUNT_KEY) := by
  decide!

theorem decode_written_header_witness :
    ((HeaderPolicy.mk 3 0 [] []).fillInAndWriteHeaderToBuffer (headerReadWriteUtils ⟨2, 2, 4⟩)
      0 false 0 0 0 ⟨[], 1000⟩)
        = (true,
          ((HeaderPolicy.mk 3 0 [] []).fillInAndWriteHeaderToBuffer (headerReadWriteUtils ⟨2, 2, 4⟩)
      0 false 0 0 0 ⟨[], 1000⟩).2) ∧
    (HeaderPolicy.createAttributeMapAndReadAllAttributes (headerReadWriteUtils ⟨2, 2, 4⟩)
      ((HeaderPolicy.mk 3 0 [] []).fillInAndWriteHeaderToBuffer (headerReadWriteUtils ⟨2, 2, 4⟩)
      0 false 0 0 0 ⟨[], 1000⟩).2.bytes).find
        (insertCharactersIntoVector DATE_KEY)
      = ((HeaderPolicy.mk 3 0 [] []).fillInHeader 0 false 0 0 0
          (HeaderPolicy.mk 3 0 [] []).mAttributeMap).find
            (insertCharactersIntoVector DATE_KEY) :=
  ⟨eq_true_pair _ (by decide!),
    decode_written_header ⟨2, 2, 4⟩ (HeaderPolicy.mk 3 0 [] []) 0 false 0 0 0
      ⟨[], 1000⟩ _ (eq_true_pair _ (by decide!)) (insertCharactersIntoVector DATE_KEY)⟩

end latinime
